import Mathlib

/-!
Verification development for the repo-brief repository.

We shallowly embed the Python modules `github_client.py`, `budget.py` and
`agents_workflow.py` into Lean. Pure string manipulation is modelled on
`List Char` (Python slices strings by code points, which matches `List Char`
exactly on the ASCII inputs involved). Machine floats of the source are
modelled as rationals. External effects (HTTP responses, the model-invocation
engine, `random.uniform`, Python set iteration order) are supplied as explicit
oracle parameters, and the embedded functions record the requests they perform
and the sleeps they execute so that theorems can speak about them.
-/

/-- Python `str.strip()` whitespace set (ASCII part; the inputs of all
theorems below are ASCII). -/
def isPyWs (c : Char) : Bool :=
  c = ' ' || c = '\t' || c = '\n' || c = '\r' || c = '\x0b' || c = '\x0c'

/-- Python `str.strip()` on a code-point list. -/
def pyStripWs (cs : List Char) : List Char :=
  ((cs.dropWhile isPyWs).reverse.dropWhile isPyWs).reverse

/-- Consume an expected literal from the front of the input, returning the
remainder, or `none` when the input does not start with the literal. -/
def dropLit : List Char → List Char → Option (List Char)
  | [], cs => some cs
  | _ :: _, [] => none
  | p :: ps, c :: cs => if c = p then dropLit ps cs else none

/-- Python `pat in s` substring test on code-point lists. -/
def subStrIn (pat : List Char) : List Char → Bool
  | [] => pat.isEmpty
  | c :: cs => pat.isPrefixOf (c :: cs) || subStrIn pat cs

/-- The truncation marker appended by `truncate` (source: `github_client.py`,
`suffix = "\n...[truncated]..."`, 18 characters). -/
def truncSuffix : List Char := "\n...[truncated]...".data

/-- `github_client.truncate`: truncate a string to `max_chars` with a visible
suffix. `max_chars` is a Python `int`, hence `Int` here. -/
def truncate (text : List Char) (max_chars : Int) : List Char :=
  if max_chars ≤ 0 then []
  else if (text.length : Int) ≤ max_chars then text
  else if max_chars ≤ (truncSuffix.length : Int) then truncSuffix.take max_chars.toNat
  else text.take (max_chars.toNat - truncSuffix.length) ++ truncSuffix

/-- `truncate` lifted to `String` (used by the repository-context builder). -/
def truncateStr (text : String) (max_chars : Int) : String :=
  String.mk (truncate text.data max_chars)

theorem truncSuffix_length : truncSuffix.length = 18 := by decide

/-- C7: case analysis of `truncate text max_chars`, in the order the claim
lists the cases: `max_chars <= 0` yields the empty string; a text that already
fits is returned unchanged; for `0 < max_chars < 18` (the marker length) a
marker prefix of length `max_chars` is returned; otherwise the result has
length exactly `max_chars` and ends with the marker. -/
theorem truncate_spec (text : List Char) (max_chars : Int) :
    (max_chars ≤ 0 → truncate text max_chars = [])
    ∧ (0 < max_chars → (text.length : Int) ≤ max_chars → truncate text max_chars = text)
    ∧ (0 < max_chars → max_chars < 18 → max_chars < (text.length : Int) →
        truncate text max_chars = truncSuffix.take max_chars.toNat
        ∧ (truncate text max_chars).length = max_chars.toNat)
    ∧ (18 ≤ max_chars → max_chars < (text.length : Int) →
        (truncate text max_chars).length = max_chars.toNat
        ∧ truncSuffix.IsSuffix (truncate text max_chars)) := by
  refine ⟨?_, ?_, ?_, ?_⟩
  · intro h
    simp [truncate, h]
  · intro h1 h2
    rw [truncate, if_neg (by omega), if_pos h2]
  · intro h1 h2 h3
    have hne : ¬ ((text.length : Int) ≤ max_chars) := by omega
    have hle : max_chars ≤ (truncSuffix.length : Int) := by
      rw [truncSuffix_length]; omega
    rw [truncate, if_neg (by omega), if_neg hne, if_pos hle]
    constructor
    · rfl
    · rw [List.length_take, truncSuffix_length]
      omega
  · intro h1 h2
    have hne : ¬ ((text.length : Int) ≤ max_chars) := by omega
    by_cases hid : max_chars ≤ (truncSuffix.length : Int)
    · have h18 : max_chars = 18 := by
        rw [truncSuffix_length] at hid; omega
      rw [truncate, if_neg (by omega), if_neg hne, if_pos hid, h18]
      constructor
      · rw [List.length_take, truncSuffix_length]
        decide
      · have : truncSuffix.take (18 : Int).toNat = truncSuffix := by decide
        rw [this]
    · rw [truncate, if_neg (by omega), if_neg hne, if_neg hid]
      have hlen : text.length ≥ max_chars.toNat := by omega
      constructor
      · rw [List.length_append, List.length_take, truncSuffix_length]
        omega
      · exact List.suffix_append _ _

/-- Witness for C7: each case of `truncate_spec` discharged at a concrete
input. -/
theorem truncate_spec_witness :
    truncate "abcdef".data (-1) = []
    ∧ truncate "abcdef".data 10 = "abcdef".data
    ∧ truncate "abcdefghij".data 5 = truncSuffix.take 5
    ∧ (truncate ("abcdefghijklmnopqrstuvwxyz".data) 20).length = 20 := by
  refine ⟨?_, ?_, ?_, ?_⟩
  · exact (truncate_spec "abcdef".data (-1)).1 (by decide)
  · exact (truncate_spec "abcdef".data 10).2.1 (by decide) (by decide)
  · exact ((truncate_spec "abcdefghij".data 5).2.2.1 (by decide) (by decide) (by decide)).1
  · exact ((truncate_spec ("abcdefghijklmnopqrstuvwxyz".data) 20).2.2.2 (by decide) (by decide)).1

/-- Helper for the regex `https?`: after the literal `http`, one optional `s`
(the regex backtracking is deterministic here: if the next character is `s`,
only the branch that consumes it can complete the match). -/
def optS (r1 : List Char) : List Char :=
  match r1 with
  | c :: rest => if c = 's' then rest else c :: rest
  | [] => []

/-- Helper for the trailing `/?$` of the URL regex: remove one trailing slash
when present. -/
def stripTrailSlash (r4 : List Char) : List Char :=
  match r4.getLast? with
  | some c => if c = '/' then r4.dropLast else r4
  | none => r4

/-- Helper for the lazy group `([^/]+?)(?:\.git)?` of the URL regex: the lazy
match strips a final `.git` whenever the remaining name stays non-empty. -/
def gitStripName (m : List Char) : List Char :=
  if 5 ≤ m.length ∧ ".git".data.isSuffixOf m then m.take (m.length - 4) else m

/-- `github_client.parse_github_repo_url`: Python
`re.match(r"^https?://github\.com/([^/]+)/([^/]+?)(?:\.git)?/?$", url.strip())`,
raising `ValueError` (modelled as `.error ()`) when the regex does not match.
The regex is embedded as a deterministic character-level matcher: literal
scheme and host, greedy owner segment up to the first slash, then the name
segment with optional `.git` suffix and optional trailing slash. -/
def parse_github_repo_url (repo_url : String) : Except Unit (String × String) :=
  match dropLit "http".data (pyStripWs repo_url.data) with
  | none => .error ()
  | some r1 =>
    match dropLit "://github.com/".data (optS r1) with
    | none => .error ()
    | some r3 =>
      if r3.takeWhile (fun c => c != '/') = [] then .error ()
      else
        match r3.dropWhile (fun c => c != '/') with
        | c :: r4 =>
          if c = '/' then
            if '/' ∈ stripTrailSlash r4 then .error ()
            else if gitStripName (stripTrailSlash r4) = [] then .error ()
            else
              .ok (String.mk (r3.takeWhile (fun c => c != '/')),
                String.mk (gitStripName (stripTrailSlash r4)))
          else .error ()
        | [] => .error ()

/-- The shape of URL accepted by the source regex: lowercase `http` or `https`
scheme, host `github.com`, a non-empty slash-free owner, a non-empty
slash-free name segment with an optional `.git` suffix stripped lazily, and an
optional trailing slash, all after stripping surrounding whitespace. -/
def UrlShape (url : String) (owner name : String) : Prop :=
  ∃ (hasS hasSlash : Bool) (m : List Char),
    pyStripWs url.data =
      "http".data ++ (if hasS then ['s'] else []) ++ "://github.com/".data
        ++ owner.data ++ '/' :: (m ++ (if hasSlash then ['/'] else []))
    ∧ owner.data ≠ [] ∧ '/' ∉ owner.data
    ∧ m ≠ [] ∧ '/' ∉ m
    ∧ name.data = gitStripName m

theorem dropLit_eq_some (p : List Char) :
    ∀ (cs r : List Char), dropLit p cs = some r ↔ cs = p ++ r := by
  induction p with
  | nil =>
    intro cs r
    simp [dropLit]
  | cons x xs ih =>
    intro cs r
    cases cs with
    | nil => simp [dropLit]
    | cons c cs =>
      by_cases hc : c = x
      · subst hc
        simp [dropLit, ih]
      · simp [dropLit, hc, Ne.symm hc]

theorem spanSlash (ys : List Char) :
    ∀ (xs : List Char), '/' ∉ xs →
      (xs ++ '/' :: ys).takeWhile (fun c => c != '/') = xs
      ∧ (xs ++ '/' :: ys).dropWhile (fun c => c != '/') = '/' :: ys := by
  intro xs
  induction xs with
  | nil => intro _; simp [List.takeWhile, List.dropWhile]
  | cons x xs ih =>
    intro h
    have hx : x ≠ '/' := by
      intro hx
      exact h (by simp [hx])
    have hxs : '/' ∉ xs := fun hm => h (List.mem_cons_of_mem _ hm)
    have hxb : (x != '/') = true := by simp [hx]
    have := ih hxs
    simp [List.takeWhile_cons, List.dropWhile_cons, hxb, this.1, this.2]

theorem gitStripName_ne_nil (m : List Char) (h : m ≠ []) : gitStripName m ≠ [] := by
  unfold gitStripName
  split
  · rename_i hcond
    have h5 := hcond.1
    intro hnil
    have := congrArg List.length hnil
    rw [List.length_take] at this
    simp at this
    omega
  · exact h

theorem getLast?_decomp {α : Type} (a : α) :
    ∀ (l : List α), l.getLast? = some a → l = l.dropLast ++ [a] := by
  intro l
  induction l with
  | nil => intro h; simp at h
  | cons x xs ih =>
    intro h
    cases xs with
    | nil =>
      simp [List.getLast?] at h
      simp [h]
    | cons y ys =>
      rw [List.getLast?_cons_cons] at h
      have hrec := ih h
      have hdl : (x :: y :: ys).dropLast = x :: (y :: ys).dropLast := by
        simp [List.dropLast]
      rw [hdl, List.cons_append, ← hrec]

theorem stripTrailSlash_no_slash (m : List Char) (h : '/' ∉ m) :
    stripTrailSlash m = m := by
  unfold stripTrailSlash
  cases hl : m.getLast? with
  | none => rfl
  | some c =>
    have hc : c ∈ m := by
      have := getLast?_decomp c m hl
      rw [this]
      simp
    have : c ≠ '/' := fun hc2 => h (hc2 ▸ hc)
    simp [this]

theorem dropLit_append (p r : List Char) : dropLit p (p ++ r) = some r :=
  (dropLit_eq_some p (p ++ r) r).mpr rfl

theorem optS_s (xs : List Char) : optS ('s' :: xs) = xs := by simp [optS]

theorem optS_colon (xs : List Char) : optS (':' :: xs) = ':' :: xs := by
  simp [optS]

theorem ghHost_cons : "://github.com/".data = ':' :: "//github.com/".data := rfl

theorem optS_decomp (r1 : List Char) :
    ∃ hasS : Bool, r1 = (if hasS then ['s'] else []) ++ optS r1 := by
  cases r1 with
  | nil => exact ⟨false, rfl⟩
  | cons c rest =>
    by_cases hc : c = 's'
    · subst hc
      exact ⟨true, by simp [optS]⟩
    · exact ⟨false, by simp [optS, hc]⟩

theorem stripTrailSlash_concat (m : List Char) :
    stripTrailSlash (m ++ ['/']) = m := by
  simp [stripTrailSlash, List.getLast?_concat, List.dropLast_concat]

theorem stripTrailSlash_decomp (r4 : List Char) :
    ∃ hasSlash : Bool,
      r4 = stripTrailSlash r4 ++ (if hasSlash then ['/'] else []) := by
  cases hl : r4.getLast? with
  | none =>
    refine ⟨false, ?_⟩
    simp [stripTrailSlash, hl]
  | some c =>
    by_cases hc : c = '/'
    · subst hc
      refine ⟨true, ?_⟩
      simp [stripTrailSlash, hl]
      exact getLast?_decomp _ _ hl
    · refine ⟨false, ?_⟩
      simp [stripTrailSlash, hl, hc]

theorem string_mk_data (s : String) : String.mk s.data = s := rfl

theorem gitStripName_nil : gitStripName [] = [] := by decide

theorem optS_host (xs : List Char) (hasS : Bool) :
    optS ((if hasS then ['s'] else []) ++ ("://github.com/".data ++ xs)) =
      "://github.com/".data ++ xs := by
  cases hasS with
  | true =>
    have hif : (if (true : Bool) = true then (['s'] : List Char) else []) = ['s'] := rfl
    rw [hif, List.singleton_append]
    exact optS_s _
  | false =>
    have hif : (if (false : Bool) = true then (['s'] : List Char) else []) = [] := rfl
    rw [hif, List.nil_append, ghHost_cons, List.cons_append]
    exact optS_colon _

/-- C8 (amended): `parse_github_repo_url` succeeds with `(owner, name)`
exactly on inputs that, after stripping surrounding whitespace, have the shape
`http[s]://github.com/OWNER/NAME[.git][/]` with a lowercase scheme; all other
inputs produce the invalid-URL error. -/
theorem parse_github_repo_url_spec (url owner name : String) :
    parse_github_repo_url url = .ok (owner, name) ↔ UrlShape url owner name := by
  constructor
  · intro h
    unfold parse_github_repo_url at h
    split at h
    · exact absurd h (by simp)
    · rename_i r1 hd1
      split at h
      · exact absurd h (by simp)
      · rename_i r3 hd3
        split at h
        · exact absurd h (by simp)
        · rename_i howner
          split at h
          · rename_i c r4 hrest
            split at h
            · rename_i hc
              subst hc
              split at h
              · exact absurd h (by simp)
              · rename_i hslash
                split at h
                · exact absurd h (by simp)
                · rename_i hnil
                  simp only [Except.ok.injEq, Prod.mk.injEq] at h
                  obtain ⟨how, hnm⟩ := h
                  obtain ⟨hasS, hS⟩ := optS_decomp r1
                  obtain ⟨hasSlash, hSl⟩ := stripTrailSlash_decomp r4
                  refine ⟨hasS, hasSlash, stripTrailSlash r4, ?_, ?_, ?_, ?_, ?_, ?_⟩
                  · rw [(dropLit_eq_some _ _ _).mp hd1, hS,
                      (dropLit_eq_some _ _ _).mp hd3]
                    have hr3 : r3 = r3.takeWhile (fun c => c != '/') ++ '/' :: r4 := by
                      conv_lhs => rw [← List.takeWhile_append_dropWhile
                        (p := fun c => c != '/') (l := r3)]
                      rw [hrest]
                    rw [hr3, ← how, ← hSl]
                    simp [string_mk_data]
                  · rw [← how]
                    exact howner
                  · rw [← how]
                    intro hmem
                    have := List.mem_takeWhile_imp hmem
                    simp at this
                  · intro hnil2
                    rw [hnil2, gitStripName_nil] at hnil
                    exact hnil rfl
                  · exact hslash
                  · rw [← hnm]
            · exact absurd h (by simp)
          · exact absurd h (by simp)
  · rintro ⟨hasS, hasSlash, m, ht, ho1, ho2, hm1, hm2, hname⟩
    have hstrip : stripTrailSlash (m ++ (if hasSlash then ['/'] else [])) = m := by
      cases hasSlash with
      | true =>
        have hif : (if (true : Bool) = true then (['/'] : List Char) else []) = ['/'] := rfl
        rw [hif]
        exact stripTrailSlash_concat m
      | false =>
        have hif : (if (false : Bool) = true then (['/'] : List Char) else []) = [] := rfl
        rw [hif, List.append_nil]
        exact stripTrailSlash_no_slash m hm2
    have hspan := spanSlash (m ++ (if hasSlash then ['/'] else [])) owner.data ho2
    have hnn : gitStripName m ≠ [] := gitStripName_ne_nil m hm1
    have hnn2 : name.data ≠ [] := by rw [hname]; exact hnn
    unfold parse_github_repo_url
    rw [ht]
    simp only [List.append_assoc]
    rw [dropLit_append]
    dsimp only
    rw [optS_host, dropLit_append]
    dsimp only
    rw [hspan.1, hspan.2, if_neg ho1]
    dsimp only
    rw [if_pos (show ('/' : Char) = '/' from rfl)]
    rw [hstrip, if_neg hm2, ← hname, if_neg hnn2, string_mk_data, string_mk_data]

/-- C8: the source regex is case-sensitive and the input is stripped first, so
the claimed acceptance of case-insensitive schemes is false: an uppercase
scheme is rejected while the same URL with a lowercase scheme (even surrounded
by whitespace, which the claimed shape excludes) is accepted. -/
theorem parse_github_repo_url_cex :
    parse_github_repo_url "HTTPS://github.com/openai/openai-python" = .error ()
    ∧ parse_github_repo_url "https://github.com/openai/openai-python" =
        .ok ("openai", "openai-python")
    ∧ parse_github_repo_url "  https://github.com/openai/openai-python  " =
        .ok ("openai", "openai-python") := by
  exact ⟨rfl, rfl, rfl⟩

/-- Witness for C8: the characterization applied at a concrete accepted URL
with `.git` suffix and trailing slash. -/
theorem parse_github_repo_url_spec_witness :
    parse_github_repo_url "https://github.com/openai/openai-python.git/" =
      .ok ("openai", "openai-python") := by
  apply (parse_github_repo_url_spec "https://github.com/openai/openai-python.git/"
    "openai" "openai-python").mpr
  refine ⟨true, true, "openai-python.git".data, ?_, ?_, ?_, ?_, ?_, ?_⟩
  · rfl
  · decide
  · decide
  · decide
  · decide
  · decide

/-- The fixed priority list of conventional top-level filenames from
`github_client.pick_key_files`. -/
def candidates : List String :=
  ["README.md", "README.rst", "README.txt", "CONTRIBUTING.md", "LICENSE",
   "SECURITY.md", "CHANGELOG.md", "CODEOWNERS", ".env.example", ".env.sample",
   "Dockerfile", "docker-compose.yml", "compose.yml", "Makefile",
   "pyproject.toml", "requirements.txt", "Pipfile", "poetry.lock", "setup.py",
   "package.json", "pnpm-lock.yaml", "yarn.lock", "tsconfig.json",
   "Cargo.toml", "go.mod", "pom.xml", "build.gradle"]

/-- The conventional entrypoint suffixes from `pick_key_files` (note every one
starts with a slash, so a top-level `main.py` does not match). -/
def entrypointSuffixes : List String :=
  ["/main.py", "/app.py", "/server.py", "/cli.py", "/index.js", "/index.ts",
   "/main.go", "/main.rs", "/__init__.py"]

/-- Python `dict` lookup on an association list with unique keys (Python dicts
preserve insertion order; `build_tree_index` inserts with replacement). -/
def dictFindStr (d : List (String × String)) (k : String) : Option String :=
  (d.find? (fun kv => kv.1 == k)).map (fun kv => kv.2)

/-- Python `str.lower()` on one character (ASCII part; repository paths in
the theorems below are ASCII). -/
def pyCharLower (c : Char) : Char :=
  if 'A' ≤ c ∧ c ≤ 'Z' then Char.ofNat (c.toNat + 32) else c

/-- Python `str.lower()` on a code-point list. -/
def pyLower (cs : List Char) : List Char := cs.map pyCharLower

/-- Test from the second loop of `pick_key_files`:
`any(lower.endswith(suffix) for suffix in (...))`. -/
def entryHit (path : String) : Bool :=
  entrypointSuffixes.any (fun s => s.data.isSuffixOf (pyLower path.data))

/-- Test from the second loop of `pick_key_files`:
`"/docs/" in lower and lower.endswith((".md", ".rst"))`. -/
def docsHit (path : String) : Bool :=
  subStrIn "/docs/".data (pyLower path.data)
    && (".md".data.isSuffixOf (pyLower path.data)
        || ".rst".data.isSuffixOf (pyLower path.data))

/-- The deduplication loop at the end of `pick_key_files` (`seen` set plus
`unique` list, keeping first occurrences). -/
def uniqueFirst (seen : List String) : List String → List String
  | [] => []
  | x :: xs => if x ∈ seen then uniqueFirst seen xs else x :: uniqueFirst (x :: seen) xs

/-- `github_client.pick_key_files`. The iteration order of the Python set
`present = set(tree_index)` is unspecified at run time, so it is passed in as
the explicit parameter `setOrder` (an enumeration of the keys); a path that
hits both the entrypoint test and the docs test would be appended twice, which
the `flatMap` of the two singleton lists reproduces. -/
def pick_key_files (tree_index : List (String × String)) (setOrder : List String)
    (max_files : Nat) : List String :=
  let found1 := candidates.filter (fun c => dictFindStr tree_index c == some "blob")
  let found2 := setOrder.flatMap (fun path =>
    if dictFindStr tree_index path ≠ some "blob" then []
    else
      (if entryHit path then [path] else [])
        ++ (if docsHit path then [path] else []))
  (uniqueFirst [] (found1 ++ found2)).take max_files

theorem uniqueFirst_props :
    ∀ (xs seen : List String),
      (∀ x ∈ uniqueFirst seen xs, x ∉ seen) ∧ (uniqueFirst seen xs).Nodup := by
  intro xs
  induction xs with
  | nil => intro seen; simp [uniqueFirst]
  | cons y ys ih =>
    intro seen
    by_cases hy : y ∈ seen
    · rw [uniqueFirst, if_pos hy]
      exact ih seen
    · rw [uniqueFirst, if_neg hy]
      have h1 := (ih (y :: seen)).1
      refine ⟨?_, ?_⟩
      · intro x hx
        rcases List.mem_cons.mp hx with hx | hx
        · rw [hx]; exact hy
        · intro hxs
          exact h1 x hx (List.mem_cons_of_mem _ hxs)
      · rw [List.nodup_cons]
        refine ⟨?_, (ih (y :: seen)).2⟩
        intro hmem
        exact h1 y hmem (List.mem_cons_self _ _)

theorem uniqueFirst_subset :
    ∀ (xs seen : List String) (x : String), x ∈ uniqueFirst seen xs → x ∈ xs := by
  intro xs
  induction xs with
  | nil => intro seen x hx; simp [uniqueFirst] at hx
  | cons y ys ih =>
    intro seen x hx
    by_cases hy : y ∈ seen
    · rw [uniqueFirst, if_pos hy] at hx
      exact List.mem_cons_of_mem _ (ih seen x hx)
    · rw [uniqueFirst, if_neg hy] at hx
      rcases List.mem_cons.mp hx with hx | hx
      · rw [hx]; exact List.mem_cons_self _ _
      · exact List.mem_cons_of_mem _ (ih (y :: seen) x hx)

theorem uniqueFirst_cons_not (seen xs : List String) (x : String) (h : x ∉ seen) :
    uniqueFirst seen (x :: xs) = x :: uniqueFirst (x :: seen) xs := by
  rw [uniqueFirst, if_neg h]

/-- C9 (amended): `pick_key_files` returns at most `max_files` de-duplicated
paths; the fixed candidate list comes first (in its own order), and every
other selected path comes from the set scan and satisfies the entrypoint test
(lowercased path ends with a slash-prefixed entrypoint basename) or the docs
test (lowercased path contains the substring `/docs/` and ends with `.md` or
`.rst`), in set-iteration order; and the concrete example of the claim holds
for every set-iteration order. -/
theorem pick_key_files_spec :
    (∀ (ti : List (String × String)) (so : List String) (mf : Nat),
      (pick_key_files ti so mf).length ≤ mf)
    ∧ (∀ (ti : List (String × String)) (so : List String) (mf : Nat),
      (pick_key_files ti so mf).Nodup)
    ∧ (∀ (ti : List (String × String)) (so : List String) (mf : Nat),
      ∀ x ∈ pick_key_files ti so mf,
        (x ∈ candidates ∧ dictFindStr ti x = some "blob")
        ∨ (x ∈ so ∧ dictFindStr ti x = some "blob"
            ∧ (entryHit x = true ∨ docsHit x = true)))
    ∧ (∀ so : List String,
      pick_key_files
        [("README.md", "blob"), ("CONTRIBUTING.md", "blob"), ("LICENSE", "blob"),
         ("pyproject.toml", "blob"), ("src/main.py", "blob"), ("docs/", "tree")]
        so 3 = ["README.md", "CONTRIBUTING.md", "LICENSE"]) := by
  refine ⟨?_, ?_, ?_, ?_⟩
  · intro ti so mf
    calc (pick_key_files ti so mf).length
        ≤ mf ⊓ (uniqueFirst [] _).length := by
          rw [pick_key_files, List.length_take]
      _ ≤ mf := inf_le_left
  · intro ti so mf
    rw [pick_key_files]
    exact List.Nodup.sublist (List.take_sublist _ _) (uniqueFirst_props _ _).2
  · intro ti so mf x hx
    rw [pick_key_files] at hx
    have hx2 := uniqueFirst_subset _ _ _ (List.take_subset _ _ hx)
    rcases List.mem_append.mp hx2 with hx3 | hx3
    · left
      have := List.mem_filter.mp hx3
      refine ⟨this.1, ?_⟩
      have := this.2
      simpa using this
    · right
      obtain ⟨p, hp, hxp⟩ := List.mem_flatMap.mp hx3
      by_cases hb : dictFindStr ti p ≠ some "blob"
      · rw [if_pos hb] at hxp
        simp at hxp
      · rw [if_neg hb] at hxp
        push_neg at hb
        rcases List.mem_append.mp hxp with hxe | hxd
        · by_cases he : entryHit p
          · rw [if_pos he] at hxe
            simp at hxe
            subst hxe
            exact ⟨hp, hb, Or.inl he⟩
          · rw [if_neg he] at hxe
            simp at hxe
        · by_cases hd : docsHit p
          · rw [if_pos hd] at hxd
            simp at hxd
            subst hxd
            exact ⟨hp, hb, Or.inr hd⟩
          · rw [if_neg hd] at hxd
            simp at hxd
  · intro so
    rw [pick_key_files]
    have hf : candidates.filter (fun c => dictFindStr
        [("README.md", "blob"), ("CONTRIBUTING.md", "blob"), ("LICENSE", "blob"),
         ("pyproject.toml", "blob"), ("src/main.py", "blob"), ("docs/", "tree")] c
          == some "blob")
        = ["README.md", "CONTRIBUTING.md", "LICENSE", "pyproject.toml"] := by
      decide
    rw [hf]
    rw [List.cons_append, List.cons_append, List.cons_append, List.cons_append]
    rw [uniqueFirst_cons_not _ _ _ (by decide),
      uniqueFirst_cons_not _ _ _ (by decide),
      uniqueFirst_cons_not _ _ _ (by decide),
      uniqueFirst_cons_not _ _ _ (by decide)]
    rfl

/-- C9: a markdown file directly under the top-level `docs/` directory is
never selected (the code requires the substring `/docs/`, with a leading
slash), and a top-level `main.py` is never selected either (every entrypoint
suffix starts with a slash) — both contradict the claimed tiers. -/
theorem pick_key_files_cex :
    pick_key_files [("docs/guide.md", "blob")] ["docs/guide.md"] 5 = []
    ∧ pick_key_files [("main.py", "blob")] ["main.py"] 5 = [] := by
  exact ⟨by decide, by decide⟩

/-- Witness for C9: the membership characterization applied at a concrete
selected path, plus the concrete 3-file example. -/
theorem pick_key_files_spec_witness :
    pick_key_files
        [("README.md", "blob"), ("CONTRIBUTING.md", "blob"), ("LICENSE", "blob"),
         ("pyproject.toml", "blob"), ("src/main.py", "blob"), ("docs/", "tree")]
        ["src/main.py"] 3 = ["README.md", "CONTRIBUTING.md", "LICENSE"]
    ∧ (("README.md" ∈ candidates
        ∧ dictFindStr [("README.md", "blob")] "README.md" = some "blob")
      ∨ ("README.md" ∈ (["README.md"] : List String)
        ∧ dictFindStr [("README.md", "blob")] "README.md" = some "blob"
        ∧ (entryHit "README.md" = true ∨ docsHit "README.md" = true))) := by
  constructor
  · exact pick_key_files_spec.2.2.2 ["src/main.py"]
  · exact pick_key_files_spec.2.2.1 [("README.md", "blob")] ["README.md"] 4
      "README.md" (by decide)

/-- Python `int(s)` on decimal strings (optional sign, digits, surrounding
whitespace; underscores and non-decimal bases are not modelled, and no theorem
input uses them). Accumulates digits into a natural number. -/
def digitsToNat (acc : Nat) : List Char → Option Nat
  | [] => some acc
  | c :: cs => if c.isDigit then digitsToNat (acc * 10 + (c.toNat - 48)) cs else none

/-- Signed decimal integer parse used to model Python `int(...)`. -/
def pyIntParse (s : String) : Option Int :=
  match pyStripWs s.data with
  | '+' :: ds =>
    if ds = [] then none else (digitsToNat 0 ds).map (fun n => (n : Int))
  | '-' :: ds =>
    if ds = [] then none else (digitsToNat 0 ds).map (fun n => -(n : Int))
  | ds =>
    if ds = [] then none else (digitsToNat 0 ds).map (fun n => (n : Int))

/-- Fraction part helper for `pyFloatParse`; the rational value is assembled
with integer arithmetic and `mkRat` (value `sign * (ip + fp / 10^len)`). -/
def pyDecCore (sign : Int) (ds : List Char) : Option ℚ :=
  match ds.dropWhile (fun c => c != '.') with
  | [] =>
    if ds = [] then none
    else (digitsToNat 0 ds).map (fun n => mkRat (sign * (n : Int)) 1)
  | _ :: fp =>
    let ip := ds.takeWhile (fun c => c != '.')
    if fp.any (fun c => c = '.') then none
    else if ip = [] ∧ fp = [] then none
    else
      match digitsToNat 0 ip, digitsToNat 0 fp with
      | some n, some f =>
        some (mkRat (sign * ((n : Int) * 10 ^ fp.length + (f : Int))) (10 ^ fp.length))
      | _, _ => none

/-- Python `float(s)` restricted to finite decimal literals (optional sign,
digits, optional fraction, surrounding whitespace). Exponents, `inf` and
`nan` are not modelled: the source immediately clamps the parsed value into
`[0, 10]`, machine floats are modelled as rationals, and no theorem input uses
those forms. -/
def pyFloatParse (s : String) : Option ℚ :=
  match pyStripWs s.data with
  | '+' :: ds => pyDecCore 1 ds
  | '-' :: ds => pyDecCore (-1) ds
  | ds => pyDecCore 1 ds

/-- `github_client._should_retry_status`. -/
def _should_retry_status (status_code : Nat) : Bool :=
  status_code == 429 || (500 ≤ status_code && status_code ≤ 599)

/-- `github_client._retry_after_seconds`: `max(0.0, min(float(retry_after),
10.0))`, `None` when the header is absent or does not parse. -/
def _retry_after_seconds (retry_after : Option String) : Option ℚ :=
  match retry_after with
  | none => none
  | some s =>
    (pyFloatParse s).map (fun q =>
      if 0 ≤ (if q ≤ 10 then q else 10) then (if q ≤ 10 then q else 10) else 0)

/-- Structural rendering of the message built by
`github_client._rate_limit_error`; the calendar formatting of
`datetime.fromtimestamp(...).strftime(...)` is abstracted into the
`resetHuman` part carrying the parsed unix value. -/
inductive MsgPart where
  | exceeded (url : String)
  | hint
  | resetHuman (unixVal : Int) (raw : String)
  | resetUnixRaw (raw : String)
deriving DecidableEq

/-- Success condition of `datetime.fromtimestamp(n, tz=datetime.timezone.utc)`:
the timestamp must land in years 1 through 9999, i.e. between the timestamps
of 0001-01-01T00:00:00Z and 9999-12-31T23:59:59Z; outside this range the call
raises `ValueError`. (An integer beyond the platform time_t range would
instead raise an uncaught `OverflowError` in CPython, and `strftime` on years
before 1000 is platform-dependent; neither platform-dependent path is
modelled, and on the reference platform `strftime` formats all in-range
years.) -/
def fromtimestampOk (n : Int) : Bool :=
  -62135596800 ≤ n && n ≤ 253402300799

/-- `github_client._rate_limit_error`: the rate-limit message: the core line
naming the url, the `Set GITHUB_TOKEN` remediation hint, then the reset part.
The `try` body runs `int(reset_unix)` and then `datetime.fromtimestamp` plus
`strftime`, and the `except ValueError` covers all of them: the
human-readable form appears only when the header parses as an integer AND
that integer is in the datetime-representable range; otherwise the raw unix
text is used (nothing when the header is missing or empty). -/
def _rate_limit_error (url : String) (resetHeader : Option String) : List MsgPart :=
  [MsgPart.exceeded url, MsgPart.hint] ++
    (match resetHeader with
     | none => []
     | some s =>
       if s = "" then []
       else
         match pyIntParse s with
         | some n =>
           if fromtimestampOk n then [MsgPart.resetHuman n s]
           else [MsgPart.resetUnixRaw s]
         | none => [MsgPart.resetUnixRaw s])

/-- One HTTP response as observed by `safe_get_json`: status plus the three
headers it reads, and whether `response.json()` succeeds. -/
structure HttpResp where
  status : Nat
  retryAfter : Option String
  rlRemaining : Option String
  rlReset : Option String
  bodyIsJson : Bool
deriving DecidableEq

/-- One attempt of `session.get`: a response, or a `requests.RequestException`
(connection-level failure). -/
inductive HttpAttempt where
  | ok (r : HttpResp)
  | netFail
deriving DecidableEq

/-- Terminal outcome of `safe_get_json`: parsed JSON body, the non-retried
rate-limit `RuntimeError`, the non-JSON-body `RuntimeError`, or the
`RuntimeError` wrapping the last HTTP or network failure. -/
inductive GhOutcome where
  | success (status : Nat)
  | rateLimited (msg : List MsgPart)
  | nonJsonBody (status : Nat)
  | failedHttp (status : Nat)
  | failedNet
deriving DecidableEq

/-- Observable behaviour of one `safe_get_json` call: outcome, the sleeps
executed (in order, in seconds), and the number of `session.get` attempts. -/
structure GhRun where
  outcome : GhOutcome
  sleeps : List ℚ
  attempts : Nat
deriving DecidableEq

/-- `BACKOFF_BASE_SECONDS * (2**attempt) + random.uniform(0.0, 0.05)`; the
sampled jitter is the oracle `jitter`. -/
def backoffSleep (jitter : Nat → ℚ) (attempt : Nat) : ℚ :=
  (1 / 2 : ℚ) * 2 ^ attempt + jitter attempt

/-- The sleep chosen before a retry: the clamped `Retry-After` value for a
429 whose header parses, the exponential backoff plus jitter otherwise
(source lines 91-95). -/
def retrySleep (jitter : Nat → ℚ) (attempt : Nat) (r : HttpResp) : ℚ :=
  if r.status = 429 then
    match _retry_after_seconds r.retryAfter with
    | some q => q
    | none => backoffSleep jitter attempt
  else backoffSleep jitter attempt

/-- The retry loop body of `safe_get_json` (`for attempt in
range(MAX_RETRIES + 1)` with `MAX_RETRIES = 3`); `fuel` counts the remaining
loop iterations. The unreachable fall-through after the loop (line 140 of the
source) is the `fuel = 0` case. -/
def sgjGo (url : String) (resp : Nat → HttpAttempt) (jitter : Nat → ℚ) :
    Nat → Nat → List ℚ → GhRun
  | 0, attempt, sleeps => ⟨.failedNet, sleeps, attempt⟩
  | fuel + 1, attempt, sleeps =>
    match resp attempt with
    | .netFail =>
      if attempt < 3 then
        sgjGo url resp jitter fuel (attempt + 1) (sleeps ++ [backoffSleep jitter attempt])
      else ⟨.failedNet, sleeps, attempt + 1⟩
    | .ok r =>
      if r.status = 403 ∧ r.rlRemaining = some "0" then
        ⟨.rateLimited (_rate_limit_error url r.rlReset), sleeps, attempt + 1⟩
      else if _should_retry_status r.status = true ∧ attempt < 3 then
        sgjGo url resp jitter fuel (attempt + 1) (sleeps ++ [retrySleep jitter attempt r])
      else if 400 ≤ r.status ∧ r.status ≤ 599 then ⟨.failedHttp r.status, sleeps, attempt + 1⟩
      else if r.bodyIsJson then ⟨.success r.status, sleeps, attempt + 1⟩
      else ⟨.nonJsonBody r.status, sleeps, attempt + 1⟩

/-- `github_client.safe_get_json` over the response and jitter oracles:
4 total attempts (`MAX_RETRIES = 3` retries). -/
def safe_get_json (url : String) (resp : Nat → HttpAttempt) (jitter : Nat → ℚ) : GhRun :=
  sgjGo url resp jitter 4 0 []

/-- An attempt on which `safe_get_json` would retry (connection failure, or a
retryable status that is not the 403 rate-limit exhaustion case). -/
def retryableAt (resp : Nat → HttpAttempt) (i : Nat) : Prop :=
  match resp i with
  | .netFail => True
  | .ok r => _should_retry_status r.status = true

/-- Zero-jitter oracle for concrete runs. -/
def jitter0 : Nat → ℚ := fun _ => 0

/-- Concrete response oracle: first attempt 429 with `Retry-After: 7`, second
attempt a 200 with a JSON body. -/
def respRA7 : Nat → HttpAttempt := fun i =>
  if i = 0 then .ok ⟨429, some "7", none, none, true⟩
  else .ok ⟨200, none, none, none, true⟩

/-- Concrete response oracle: first attempt 429 with `Retry-After: -5`, second
attempt a 200 with a JSON body. -/
def respNegRA : Nat → HttpAttempt := fun i =>
  if i = 0 then .ok ⟨429, some "-5", none, none, true⟩
  else .ok ⟨200, none, none, none, true⟩

/-- Concrete response oracle: a 403 with zero remaining rate limit and a
non-integer reset header on every attempt. -/
def resp403soon : Nat → HttpAttempt := fun _ =>
  .ok ⟨403, none, some "0", some "soon", true⟩

theorem sgjGo_sleeps_extend (url : String) (resp : Nat → HttpAttempt) (jitter : Nat → ℚ) :
    ∀ (fuel attempt : Nat) (sleeps : List ℚ),
      ∃ t, (sgjGo url resp jitter fuel attempt sleeps).sleeps = sleeps ++ t := by
  intro fuel
  induction fuel with
  | zero =>
    intro attempt sleeps
    exact ⟨[], by simp [sgjGo]⟩
  | succ f ih =>
    intro attempt sleeps
    cases hra : resp attempt with
    | netFail =>
      simp only [sgjGo, hra]
      by_cases hlt : attempt < 3
      · rw [if_pos hlt]
        obtain ⟨t, ht⟩ := ih (attempt + 1) (sleeps ++ [backoffSleep jitter attempt])
        exact ⟨backoffSleep jitter attempt :: t, by rw [ht]; simp⟩
      · rw [if_neg hlt]
        exact ⟨[], by simp⟩
    | ok r =>
      simp only [sgjGo, hra]
      by_cases h4 : r.status = 403 ∧ r.rlRemaining = some "0"
      · rw [if_pos h4]
        exact ⟨[], by simp⟩
      · rw [if_neg h4]
        by_cases h5 : _should_retry_status r.status = true ∧ attempt < 3
        · rw [if_pos h5]
          obtain ⟨t, ht⟩ := ih (attempt + 1) (sleeps ++ [retrySleep jitter attempt r])
          exact ⟨retrySleep jitter attempt r :: t, by rw [ht]; simp⟩
        · rw [if_neg h5]
          by_cases h6 : 400 ≤ r.status ∧ r.status ≤ 599
          · rw [if_pos h6]
            exact ⟨[], by simp⟩
          · rw [if_neg h6]
            by_cases h7 : r.bodyIsJson = true
            · rw [if_pos h7]
              exact ⟨[], by simp⟩
            · rw [if_neg h7]
              exact ⟨[], by simp⟩

theorem sgjGo_shape (url : String) (resp : Nat → HttpAttempt) (jitter : Nat → ℚ) :
    ∀ (fuel attempt : Nat) (sleeps : List ℚ),
      attempt + fuel = 4 → attempt ≤ 3 → sleeps.length = attempt →
      (sgjGo url resp jitter fuel attempt sleeps).attempts =
        (sgjGo url resp jitter fuel attempt sleeps).sleeps.length + 1
      ∧ (sgjGo url resp jitter fuel attempt sleeps).attempts ≤ 4 := by
  intro fuel
  induction fuel with
  | zero =>
    intro attempt sleeps h1 h2 h3
    exfalso
    omega
  | succ f ih =>
    intro attempt sleeps h1 h2 h3
    cases hra : resp attempt with
    | netFail =>
      simp only [sgjGo, hra]
      by_cases hlt : attempt < 3
      · rw [if_pos hlt]
        exact ih (attempt + 1) _ (by omega) (by omega) (by simp [h3])
      · rw [if_neg hlt]
        exact ⟨by simp [h3], by simp; omega⟩
    | ok r =>
      simp only [sgjGo, hra]
      by_cases h4 : r.status = 403 ∧ r.rlRemaining = some "0"
      · rw [if_pos h4]
        exact ⟨by simp [h3], by simp; omega⟩
      · rw [if_neg h4]
        by_cases h5 : _should_retry_status r.status = true ∧ attempt < 3
        · rw [if_pos h5]
          exact ih (attempt + 1) _ (by omega) (by omega) (by simp [h3])
        · rw [if_neg h5]
          by_cases h6 : 400 ≤ r.status ∧ r.status ≤ 599
          · rw [if_pos h6]
            exact ⟨by simp [h3], by simp; omega⟩
          · rw [if_neg h6]
            by_cases h7 : r.bodyIsJson = true
            · rw [if_pos h7]
              exact ⟨by simp [h3], by simp; omega⟩
            · rw [if_neg h7]
              exact ⟨by simp [h3], by simp; omega⟩

theorem retryable_not_403 (r : HttpResp) (h : _should_retry_status r.status = true) :
    ¬ (r.status = 403 ∧ r.rlRemaining = some "0") := by
  intro hc
  rw [hc.1] at h
  simp [_should_retry_status] at h

theorem sgjGo_reach (url : String) (resp : Nat → HttpAttempt) (jitter : Nat → ℚ) :
    ∀ (a : Nat), a ≤ 3 → (∀ i, i < a → retryableAt resp i) →
      ∃ s : List ℚ, s.length = a ∧
        safe_get_json url resp jitter = sgjGo url resp jitter (4 - a) a s := by
  intro a
  induction a with
  | zero =>
    intro _ _
    exact ⟨[], rfl, rfl⟩
  | succ a ih =>
    intro ha hr
    obtain ⟨s, hs, heq⟩ := ih (by omega) (fun i hi => hr i (by omega))
    have hret := hr a (by omega)
    have hfuel : 4 - a = (4 - (a + 1)) + 1 := by omega
    rw [hfuel] at heq
    cases hrb : resp a with
    | netFail =>
      refine ⟨s ++ [backoffSleep jitter a], by simp [hs], ?_⟩
      rw [heq]
      simp only [sgjGo, hrb]
      rw [if_pos (by omega)]
    | ok r =>
      have hretr : _should_retry_status r.status = true := by
        simp only [retryableAt, hrb] at hret
        exact hret
      refine ⟨s ++ [retrySleep jitter a r], by simp [hs], ?_⟩
      rw [heq]
      simp only [sgjGo, hrb]
      rw [if_neg (retryable_not_403 r hretr), if_pos ⟨hretr, by omega⟩]

theorem sgjGo_sleeps_index (url : String) (resp : Nat → HttpAttempt) (jitter : Nat → ℚ)
    (fuel attempt : Nat) (s : List ℚ) (q : ℚ) :
    (sgjGo url resp jitter fuel attempt (s ++ [q])).sleeps[s.length]? = some q := by
  obtain ⟨t, ht⟩ := sgjGo_sleeps_extend url resp jitter fuel attempt (s ++ [q])
  rw [ht, List.append_assoc, List.getElem?_append_right (le_refl s.length)]
  simp

/-- C5 (amended): `safe_get_json` makes at most 4 attempts (3 retries) and at
most 3 sleeps; the sleep before the retry of attempt `a` is the clamped
`Retry-After` value `max 0 (min v 10)` when the response is a 429 whose
header parses to `v` (the claim omits the lower clamp at 0), and the
exponential backoff `0.5 * 2^a` plus the sampled jitter otherwise (also after
a connection failure); exhausting the retries ends in the error wrapping the
last failure; and `Retry-After: 7` followed by a success yields exactly one
sleep of 7 seconds. -/
theorem safe_get_json_spec :
    (∀ (url : String) (resp : Nat → HttpAttempt) (jitter : Nat → ℚ),
      (safe_get_json url resp jitter).attempts ≤ 4
      ∧ (safe_get_json url resp jitter).sleeps.length ≤ 3)
    ∧ (∀ (url : String) (resp : Nat → HttpAttempt) (jitter : Nat → ℚ)
        (a : Nat) (r : HttpResp),
        a < 3 → (∀ i, i < a → retryableAt resp i) → resp a = .ok r →
        _should_retry_status r.status = true →
        (safe_get_json url resp jitter).sleeps[a]? = some (retrySleep jitter a r))
    ∧ (∀ (url : String) (resp : Nat → HttpAttempt) (jitter : Nat → ℚ) (a : Nat),
        a < 3 → (∀ i, i < a → retryableAt resp i) → resp a = .netFail →
        (safe_get_json url resp jitter).sleeps[a]? =
          some ((1 / 2 : ℚ) * 2 ^ a + jitter a))
    ∧ (∀ (jitter : Nat → ℚ) (a : Nat) (r : HttpResp) (s : String) (v : ℚ),
        r.status = 429 → r.retryAfter = some s → pyFloatParse s = some v →
        retrySleep jitter a r = max 0 (min v 10))
    ∧ (∀ (jitter : Nat → ℚ) (a : Nat) (r : HttpResp),
        ¬ (r.status = 429 ∧ (_retry_after_seconds r.retryAfter).isSome = true) →
        retrySleep jitter a r = (1 / 2 : ℚ) * 2 ^ a + jitter a)
    ∧ (∀ (url : String) (resp : Nat → HttpAttempt) (jitter : Nat → ℚ),
        (∀ i, i ≤ 3 → retryableAt resp i) →
        (safe_get_json url resp jitter).attempts = 4
        ∧ (∀ r, resp 3 = .ok r →
            (safe_get_json url resp jitter).outcome = .failedHttp r.status)
        ∧ (resp 3 = .netFail →
            (safe_get_json url resp jitter).outcome = .failedNet))
    ∧ ((safe_get_json "u" respRA7 jitter0).sleeps = [7]
        ∧ (safe_get_json "u" respRA7 jitter0).outcome = .success 200
        ∧ (safe_get_json "u" respRA7 jitter0).attempts = 2) := by
  refine ⟨?_, ?_, ?_, ?_, ?_, ?_, ?_⟩
  · intro url resp jitter
    have h := sgjGo_shape url resp jitter 4 0 [] (by omega) (by omega) rfl
    rw [safe_get_json]
    exact ⟨h.2, by omega⟩
  · intro url resp jitter a r ha hr hra hretr
    obtain ⟨s, hs, heq⟩ := sgjGo_reach url resp jitter a (by omega) hr
    have hfuel : 4 - a = (4 - (a + 1)) + 1 := by omega
    rw [hfuel] at heq
    rw [heq]
    simp only [sgjGo, hra]
    rw [if_neg (retryable_not_403 r hretr), if_pos ⟨hretr, ha⟩, ← hs]
    exact sgjGo_sleeps_index url resp jitter _ _ s _
  · intro url resp jitter a ha hr hra
    obtain ⟨s, hs, heq⟩ := sgjGo_reach url resp jitter a (by omega) hr
    have hfuel : 4 - a = (4 - (a + 1)) + 1 := by omega
    rw [hfuel] at heq
    rw [heq]
    simp only [sgjGo, hra]
    rw [if_pos ha, ← hs]
    have hidx := sgjGo_sleeps_index url resp jitter (4 - (s.length + 1))
      (s.length + 1) s (backoffSleep jitter s.length)
    rw [backoffSleep] at hidx
    exact hidx
  · intro jitter a r s v h429 hhdr hparse
    rw [retrySleep, if_pos h429, hhdr]
    simp only [_retry_after_seconds, hparse, Option.map_some']
    rw [min_def, max_def]
  · intro jitter a r hnot
    rw [retrySleep]
    by_cases h429 : r.status = 429
    · rw [if_pos h429]
      have hnone : _retry_after_seconds r.retryAfter = none := by
        cases hopt : _retry_after_seconds r.retryAfter with
        | none => rfl
        | some q => exact absurd ⟨h429, by rw [hopt]; rfl⟩ hnot
      rw [hnone]
      rfl
    · rw [if_neg h429]
      rfl
  · intro url resp jitter hr
    obtain ⟨s, hs, heq⟩ := sgjGo_reach url resp jitter 3 (by omega)
      (fun i hi => hr i (by omega))
    have hfuel : (4 - 3 : Nat) = 0 + 1 := by omega
    rw [hfuel] at heq
    have hret := hr 3 (by omega)
    have hmain : ∀ r, resp 3 = .ok r →
        safe_get_json url resp jitter = ⟨.failedHttp r.status, s, 4⟩ := by
      intro r hrb
      have hretr : _should_retry_status r.status = true := by
        simp only [retryableAt, hrb] at hret
        exact hret
      have h6 : 400 ≤ r.status ∧ r.status ≤ 599 := by
        simp only [_should_retry_status, Bool.or_eq_true, beq_iff_eq,
          Bool.and_eq_true, decide_eq_true_eq] at hretr
        rcases hretr with h | h
        · omega
        · omega
      rw [heq]
      simp only [sgjGo, hrb]
      rw [if_neg (retryable_not_403 r hretr),
        if_neg (fun hc => absurd hc.2 (by omega)), if_pos h6]
    have hnet : resp 3 = .netFail →
        safe_get_json url resp jitter = ⟨.failedNet, s, 4⟩ := by
      intro hrb
      rw [heq]
      simp only [sgjGo, hrb]
      rw [if_neg (by omega)]
    refine ⟨?_, ?_, ?_⟩
    · cases hrb : resp 3 with
      | netFail => rw [hnet hrb]
      | ok r => rw [hmain r hrb]
    · intro r hrb
      rw [hmain r hrb]
    · intro hrb
      rw [hnet hrb]
  · exact ⟨by decide, by decide, by decide⟩

/-- Witness for C5: the retry-sleep conjuncts applied at the concrete 429
oracle with `Retry-After: 7` at attempt 0. -/
theorem safe_get_json_spec_witness :
    (safe_get_json "u" respRA7 jitter0).sleeps[0]? =
      some (retrySleep jitter0 0 ⟨429, some "7", none, none, true⟩)
    ∧ retrySleep jitter0 0 ⟨429, some "7", none, none, true⟩ =
        max 0 (min (mkRat 7 1) 10) := by
  constructor
  · exact safe_get_json_spec.2.1 "u" respRA7 jitter0 0
      ⟨429, some "7", none, none, true⟩ (by omega)
      (fun i hi => absurd hi (Nat.not_lt_zero i)) rfl (by decide)
  · exact safe_get_json_spec.2.2.2.1 jitter0 0 ⟨429, some "7", none, none, true⟩
      "7" (mkRat 7 1) rfl rfl (by decide)

/-- C5: the claim says the sleep equals the parsed `Retry-After` value capped
at 10; for a negative header value the code clamps the sleep up to 0, so the
sleep is 0 and not `min (-5) 10 = -5`. -/
theorem safe_get_json_cex :
    (safe_get_json "u" respNegRA jitter0).sleeps = [0]
    ∧ pyFloatParse "-5" = some (-5)
    ∧ ¬ (min (-5 : ℚ) 10 = 0) := by
  refine ⟨by decide, by decide, ?_⟩
  rw [min_eq_left (by norm_num)]
  norm_num

/-- C6 (amended): a 403 response whose `X-RateLimit-Remaining` header is
`"0"` makes `safe_get_json` fail immediately with the rate-limit error: no
further attempt, no further sleep; the message always carries the
`Set GITHUB_TOKEN` remediation hint, carries the human-readable reset time
when the reset header parses as an integer within the datetime-representable
range, and carries the raw header text when the non-empty header does not
parse as an integer or parses to an integer outside that range (both raise
`ValueError` inside the same `try`; the claim promises the human-readable
form whenever the header is present). -/
theorem rate_limit_spec :
    (∀ (url : String) (resp : Nat → HttpAttempt) (jitter : Nat → ℚ)
        (a : Nat) (r : HttpResp),
      a ≤ 3 → (∀ i, i < a → retryableAt resp i) → resp a = .ok r →
      r.status = 403 → r.rlRemaining = some "0" →
      (safe_get_json url resp jitter).outcome =
        .rateLimited (_rate_limit_error url r.rlReset)
      ∧ (safe_get_json url resp jitter).sleeps.length = a
      ∧ (safe_get_json url resp jitter).attempts = a + 1)
    ∧ (∀ (url : String) (resetHeader : Option String),
        MsgPart.hint ∈ _rate_limit_error url resetHeader)
    ∧ (∀ (url s : String) (n : Int), s ≠ "" → pyIntParse s = some n →
        fromtimestampOk n = true →
        MsgPart.resetHuman n s ∈ _rate_limit_error url (some s))
    ∧ (∀ (url s : String), s ≠ "" → pyIntParse s = none →
        MsgPart.resetUnixRaw s ∈ _rate_limit_error url (some s))
    ∧ (∀ (url s : String) (n : Int), s ≠ "" → pyIntParse s = some n →
        fromtimestampOk n = false →
        MsgPart.resetUnixRaw s ∈ _rate_limit_error url (some s)) := by
  refine ⟨?_, ?_, ?_, ?_, ?_⟩
  · intro url resp jitter a r ha hr hra hst hrem
    obtain ⟨s, hs, heq⟩ := sgjGo_reach url resp jitter a ha hr
    have hfuel : 4 - a = (4 - (a + 1)) + 1 := by omega
    rw [hfuel] at heq
    rw [heq]
    simp only [sgjGo, hra]
    rw [if_pos ⟨hst, hrem⟩]
    exact ⟨rfl, hs, rfl⟩
  · intro url resetHeader
    unfold _rate_limit_error
    exact List.mem_append_left _ (by simp)
  · intro url s n hne hparse hok
    unfold _rate_limit_error
    simp [hne, hparse, hok]
  · intro url s hne hparse
    unfold _rate_limit_error
    simp [hne, hparse]
  · intro url s n hne hparse hok
    unfold _rate_limit_error
    simp [hne, hparse, hok]

/-- C6: with a 403/zero-remaining response whose reset header is the
non-integer text `soon`, the error message carries the raw header text, not a
human-readable reset time — the claim promises the human-readable form
whenever the header is present; the integer header `999999999999` (year
33658, beyond the datetime range, so `fromtimestamp` raises `ValueError`
inside the same `try`) also yields the raw form. -/
theorem rate_limit_cex :
    _rate_limit_error "u" (some "soon")
      = [MsgPart.exceeded "u", MsgPart.hint, MsgPart.resetUnixRaw "soon"]
    ∧ pyIntParse "soon" = none
    ∧ _rate_limit_error "u" (some "999999999999")
      = [MsgPart.exceeded "u", MsgPart.hint, MsgPart.resetUnixRaw "999999999999"]
    ∧ pyIntParse "999999999999" = some 999999999999
    ∧ fromtimestampOk 999999999999 = false
    ∧ (safe_get_json "u" resp403soon jitter0).outcome =
        .rateLimited [MsgPart.exceeded "u", MsgPart.hint, MsgPart.resetUnixRaw "soon"] := by
  exact ⟨by decide, by decide, by decide, by decide, by decide, by decide⟩

/-- Witness for C6: the immediate-failure conjunct applied at the concrete
403 oracle on the first attempt, the human-readable part for an in-range
integer reset header, and the raw part for an out-of-datetime-range integer
header. -/
theorem rate_limit_spec_witness :
    ((safe_get_json "u" resp403soon jitter0).outcome =
        .rateLimited (_rate_limit_error "u" (some "soon"))
      ∧ (safe_get_json "u" resp403soon jitter0).sleeps.length = 0
      ∧ (safe_get_json "u" resp403soon jitter0).attempts = 1)
    ∧ MsgPart.resetHuman 1700000000 "1700000000" ∈
        _rate_limit_error "u" (some "1700000000")
    ∧ MsgPart.resetUnixRaw "999999999999" ∈
        _rate_limit_error "u" (some "999999999999") := by
  refine ⟨?_, ?_, ?_⟩
  · exact rate_limit_spec.1 "u" resp403soon jitter0 0
      ⟨403, none, some "0", some "soon", true⟩
      (by omega) (fun i hi => absurd hi (Nat.not_lt_zero i)) rfl rfl rfl
  · exact rate_limit_spec.2.2.1 "u" "1700000000" 1700000000 (by decide) (by decide)
      (by decide)
  · exact rate_limit_spec.2.2.2.2 "u" "999999999999" 999999999999 (by decide)
      (by decide) (by decide)

/-- The opening and closing brace characters, named to keep JSON text in this
file readable. -/
def lbrace : Char := Char.ofNat 123

def rbrace : Char := Char.ofNat 125

/-- JSON values as produced by Python `json.loads`. Numbers are restricted to
integers: the briefing pipeline never manipulates numeric fields of parsed
model output, and no theorem input uses a float literal. -/
inductive JVal where
  | jnull
  | jbool (b : Bool)
  | jnum (n : Int)
  | jstr (s : String)
  | jarr (elems : List JVal)
  | jobj (fields : List (String × JVal))

/-- Python `dict` insertion with replacement (keeps the original key position,
as Python dicts do). -/
def insertKeyP {α : Type} : List (String × α) → String → α → List (String × α)
  | [], k, v => [(k, v)]
  | (k0, v0) :: rest, k, v =>
    if k0 = k then (k0, v) :: rest else (k0, v0) :: insertKeyP rest k v

/-- Lookup in a Python dict (keys are unique). -/
def dictFind (d : List (String × JVal)) (k : String) : Option JVal :=
  (d.find? (fun kv => kv.1 == k)).map (fun kv => kv.2)

/-- Python `d.get(k)`: `None` (JSON null) when the key is missing. -/
def dictGet (d : List (String × JVal)) (k : String) : JVal :=
  (dictFind d k).getD .jnull

/-- Python `k in d`. -/
def dictMem (d : List (String × JVal)) (k : String) : Bool :=
  (dictFind d k).isSome

/-- Python truthiness of a JSON value. -/
def pyTruthy : JVal → Bool
  | .jnull => false
  | .jbool b => b
  | .jnum n => n != 0
  | .jstr s => !(s == "")
  | .jarr xs => !xs.isEmpty
  | .jobj fs => !fs.isEmpty

/-- `x or y` on JSON values. -/
def jorJ (a b : JVal) : JVal := if pyTruthy a then a else b

/-- `.get` on a value statically known to be an object in the source
(non-objects yield null here; in Python a `.get` on a non-dict raises, a path
no theorem exercises). -/
def jget (v : JVal) (k : String) : JVal :=
  match v with
  | .jobj fs => dictGet fs k
  | _ => .jnull

/-- Whitespace skipped by the JSON grammar. -/
def jSkipWs : List Char → List Char
  | [] => []
  | c :: cs => if c = ' ' ∨ c = '\t' ∨ c = '\n' ∨ c = '\r' then jSkipWs cs else c :: cs

/-- Hexadecimal digit value. -/
def hexVal (c : Char) : Option Nat :=
  if c.isDigit then some (c.toNat - 48)
  else if 'a' ≤ c ∧ c ≤ 'f' then some (c.toNat - 87)
  else if 'A' ≤ c ∧ c ≤ 'F' then some (c.toNat - 55)
  else none

/-- JSON string body after the opening quote, with the standard escapes
(lone `\uXXXX` escapes map through `Char.ofNat`; surrogate pairs are not
recombined, and no theorem input uses them). -/
def jParseStringBody (fuel : Nat) (acc : List Char) (cs : List Char) :
    Option (String × List Char) :=
  match fuel with
  | 0 => none
  | f + 1 =>
    match cs with
    | [] => none
    | c :: cs2 =>
      if c = '"' then some (String.mk acc.reverse, cs2)
      else if c = '\\' then
        match cs2 with
        | [] => none
        | e :: cs3 =>
          if e = '"' then jParseStringBody f ('"' :: acc) cs3
          else if e = '\\' then jParseStringBody f ('\\' :: acc) cs3
          else if e = '/' then jParseStringBody f ('/' :: acc) cs3
          else if e = 'n' then jParseStringBody f ('\n' :: acc) cs3
          else if e = 't' then jParseStringBody f ('\t' :: acc) cs3
          else if e = 'r' then jParseStringBody f ('\r' :: acc) cs3
          else if e = 'b' then jParseStringBody f ('\x08' :: acc) cs3
          else if e = 'f' then jParseStringBody f ('\x0c' :: acc) cs3
          else if e = 'u' then
            match cs3 with
            | h1 :: h2 :: h3 :: h4 :: cs4 =>
              match hexVal h1, hexVal h2, hexVal h3, hexVal h4 with
              | some a, some b, some c4, some d =>
                jParseStringBody f
                  (Char.ofNat (((a * 16 + b) * 16 + c4) * 16 + d) :: acc) cs4
              | _, _, _, _ => none
            | _ => none
          else none
      else jParseStringBody f (c :: acc) cs2

/-- True when the characters after an integer literal would make it a float
or exponent form (which this integer-only model rejects). -/
def isFloatCont : List Char → Bool
  | c :: _ => c = '.' || c = 'e' || c = 'E'
  | [] => false

/-- JSON integer literal. -/
def jParseNumAt (cs : List Char) : Option (JVal × List Char) :=
  match cs with
  | '-' :: rest =>
    let ds := rest.takeWhile Char.isDigit
    let rest2 := rest.dropWhile Char.isDigit
    if ds = [] then none
    else if isFloatCont rest2 then none
    else (digitsToNat 0 ds).map (fun n => (JVal.jnum (-(n : Int)), rest2))
  | _ =>
    let ds := cs.takeWhile Char.isDigit
    let rest2 := cs.dropWhile Char.isDigit
    if ds = [] then none
    else if isFloatCont rest2 then none
    else (digitsToNat 0 ds).map (fun n => (JVal.jnum (n : Int), rest2))

/-- Python dict construction from parsed members (later duplicate keys
replace earlier values in place). -/
def pyDictOfPairs (ps : List (String × JVal)) : List (String × JVal) :=
  ps.foldl (fun acc kv => insertKeyP acc kv.1 kv.2) []

mutual

/-- Recursive-descent JSON value parser (fuel-indexed; the fuel passed by
`jsonParse` always suffices because every recursion step consumes input). -/
def jParseVal : Nat → List Char → Option (JVal × List Char)
  | 0, _ => none
  | f + 1, cs =>
    match jSkipWs cs with
    | [] => none
    | c :: cs2 =>
      if c = 'n' then (dropLit "ull".data cs2).map (fun r => (JVal.jnull, r))
      else if c = 't' then (dropLit "rue".data cs2).map (fun r => (JVal.jbool true, r))
      else if c = 'f' then (dropLit "alse".data cs2).map (fun r => (JVal.jbool false, r))
      else if c = '"' then
        (jParseStringBody (cs2.length + 1) [] cs2).map (fun p => (JVal.jstr p.1, p.2))
      else if c = '[' then
        match jSkipWs cs2 with
        | ']' :: cs3 => some (JVal.jarr [], cs3)
        | _ => (jParseElems f cs2).map (fun p => (JVal.jarr p.1, p.2))
      else if c = lbrace then
        match jSkipWs cs2 with
        | r :: cs3 =>
          if r = rbrace then some (JVal.jobj [], cs3)
          else (jParseMembers f cs2).map (fun p => (JVal.jobj (pyDictOfPairs p.1), p.2))
        | [] => none
      else jParseNumAt (c :: cs2)

/-- Array elements after the opening bracket (at least one element). -/
def jParseElems : Nat → List Char → Option (List JVal × List Char)
  | 0, _ => none
  | f + 1, cs =>
    match jParseVal f cs with
    | none => none
    | some (v, rest) =>
      match jSkipWs rest with
      | ',' :: rest2 => (jParseElems f rest2).map (fun p => (v :: p.1, p.2))
      | ']' :: rest2 => some ([v], rest2)
      | _ => none

/-- Object members after the opening brace (at least one member). -/
def jParseMembers : Nat → List Char → Option (List (String × JVal) × List Char)
  | 0, _ => none
  | f + 1, cs =>
    match jSkipWs cs with
    | '"' :: cs2 =>
      match jParseStringBody (cs2.length + 1) [] cs2 with
      | none => none
      | some (k, rest) =>
        match jSkipWs rest with
        | ':' :: rest2 =>
          match jParseVal f rest2 with
          | none => none
          | some (v, rest3) =>
            match jSkipWs rest3 with
            | ',' :: rest4 => (jParseMembers f rest4).map (fun p => ((k, v) :: p.1, p.2))
            | r :: rest4 =>
              if r = rbrace then some ([(k, v)], rest4) else none
            | [] => none
        | _ => none
    | _ => none

end

/-- Python `json.loads`: parse one JSON value and require only whitespace
after it, else fail (`json.JSONDecodeError`). -/
def jsonParse (s : String) : Option JVal :=
  match jParseVal (2 * s.data.length + 2) s.data with
  | some (v, rest) => if jSkipWs rest = [] then some v else none
  | none => none

/-- The parse result restricted to objects, mirroring the
`isinstance(obj, dict)` guard of `json_or_fallback`. -/
def jsonObjOf (t : String) : Option (List (String × JVal)) :=
  match jsonParse t with
  | some (.jobj d) => some d
  | _ => none

/-- The fallback dictionary `{fallback_key: text, "files_to_inspect": []}`
built by `json_or_fallback` and by the per-stage schema fallbacks. -/
def fallbackDict (fallback_key text : String) : List (String × JVal) :=
  [(fallback_key, JVal.jstr text), ("files_to_inspect", JVal.jarr [])]

/-- `agents_workflow.json_or_fallback`: parse the whole text with
`json.loads`; return the object if the parse yields a dict, the fallback
dictionary otherwise (parse failure or a non-dict value). -/
def json_or_fallback (text : String) (fallback_key : String) : List (String × JVal) :=
  match jsonParse text with
  | some (.jobj fields) => fields
  | _ => fallbackDict fallback_key text

/-- `isinstance(value, str)`. -/
def isJStr : JVal → Bool
  | .jstr _ => true
  | _ => false

/-- `agents_workflow._is_string_list`. -/
def _is_string_list : JVal → Bool
  | .jarr xs => xs.all isJStr
  | _ => false

/-- `agents_workflow.validate_overview_output`. -/
def validate_overview_output (payload : List (String × JVal)) : Bool :=
  isJStr (dictGet payload "briefing_markdown")
    && _is_string_list (dictGet payload "files_to_inspect")

/-- `agents_workflow.validate_deep_dive_output`. -/
def validate_deep_dive_output (payload : List (String × JVal)) : Bool :=
  if isJStr (dictGet payload "briefing_markdown") = false then false
  else if dictMem payload "files_to_inspect" = false then true
  else _is_string_list (dictGet payload "files_to_inspect")

/-- `agents_workflow.validate_reading_plan_output`. -/
def validate_reading_plan_output (payload : List (String × JVal)) : Bool :=
  isJStr (dictGet payload "reading_plan_markdown")

/-- String content of a value the surrounding guard has validated to be a
string (other shapes coerce to the empty string, matching the `.get(key, "")`
defaults which are only reached when the guarded value is absent). -/
def asStr : JVal → String
  | .jstr s => s
  | _ => ""

/-- Elements of a validated string list. -/
def asStrList : JVal → List String
  | .jarr xs => xs.map asStr
  | _ => []

/-- `data.get("files_to_inspect", []) or []`. -/
def filesGet (data : List (String × JVal)) : List String :=
  match dictFind data "files_to_inspect" with
  | some v => if pyTruthy v = true then asStrList v else []
  | none => []

/-- `briefing = data2.get("briefing_markdown", briefing)` (deep-dive loop,
line 334). -/
def dd_update_briefing (data2 : List (String × JVal)) (briefing : String) : String :=
  match dictFind data2 "briefing_markdown" with
  | some v => asStr v
  | none => briefing

def overview_warning : String :=
  "overview stage returned invalid JSON schema; used text fallback"

def deep_dive_warning (it : Nat) : String :=
  "deep dive " ++ toString it ++ " stage returned invalid JSON schema; used text fallback"

def reading_plan_warning : String :=
  "reading plan stage returned invalid JSON schema; used text fallback"

/-- Result of one overview or deep-dive stage: new briefing, new pending file
list, warnings appended by the stage. -/
structure StageOut where
  briefing : String
  files : List String
  warnings : List String
deriving DecidableEq

/-- Overview-stage output processing (`run_briefing_loop` lines 282-288). -/
def overviewStep (text : String) : StageOut :=
  let data := json_or_fallback text "briefing_markdown"
  let step :=
    if validate_overview_output data = false then
      (fallbackDict "briefing_markdown" text, [overview_warning])
    else (data, ([] : List String))
  ⟨asStr (dictGet step.1 "briefing_markdown"), filesGet step.1, step.2⟩

/-- Deep-dive-stage output processing (`run_briefing_loop` lines 327-335). -/
def ddStep (it : Nat) (briefing text : String) : StageOut :=
  let data := json_or_fallback text "briefing_markdown"
  let step :=
    if validate_deep_dive_output data = false then
      (fallbackDict "briefing_markdown" text, [deep_dive_warning it])
    else (data, ([] : List String))
  ⟨dd_update_briefing step.1 briefing, filesGet step.1, step.2⟩

/-- Result of the reading-plan stage. -/
structure RpOut where
  reading_plan : String
  warnings : List String
deriving DecidableEq

/-- Reading-plan-stage output processing (`run_briefing_loop` lines
363-368). -/
def rpStep (text : String) : RpOut :=
  let data := json_or_fallback text "reading_plan_markdown"
  let step :=
    if validate_reading_plan_output data = false then
      (fallbackDict "reading_plan_markdown" text, [reading_plan_warning])
    else (data, ([] : List String))
  ⟨asStr (dictGet step.1 "reading_plan_markdown"), step.2⟩

/-- One model invocation as observed by the orchestrator: the extracted final
text (`get_final_text`), and the usage numbers produced by
`usage_totals`/`estimate_cost_usd` for that invocation. -/
structure StageRun where
  text : String
  totalTokens : Nat
  cost : ℚ
  requests : Nat

/-- Oracle for the model-invocation engine: what each stage invocation
returns (`deepDive` is indexed by the 1-based iteration counter `it`). -/
structure BriefOracle where
  overview : StageRun
  deepDive : Nat → StageRun
  readingPlan : StageRun

/-- Trace tag for each model-invoking stage executed. -/
inductive StageTag where
  | overview
  | deepDive (it : Nat)
  | readingPlan
deriving DecidableEq

/-- Mutable loop state of `run_briefing_loop`, plus the stage trace. -/
structure RunState where
  accTokens : Nat
  accCost : ℚ
  requests : Nat
  warnings : List String
  briefing : String
  files : List String
  trace : List StageTag

/-- `budget_exceeded` (closure in `run_briefing_loop`, lines 290-293). -/
def budget_exceeded (max_tokens : Int) (max_cost : ℚ) (tok : Nat) (cost : ℚ) : Bool :=
  if 0 < max_tokens ∧ max_tokens ≤ (tok : Int) then true
  else decide (0 < max_cost ∧ max_cost ≤ cost)

/-- State after the overview stage (always runs). -/
def afterOverview (o : BriefOracle) : RunState :=
  let r := o.overview
  let st := overviewStep r.text
  ⟨r.totalTokens, r.cost, r.requests, st.warnings, st.briefing, st.files,
    [StageTag.overview]⟩

/-- The deep-dive `while` loop (`it < max_iters and files_to_inspect and not
budget_exceeded()`); `fuel` is the remaining iteration allowance
`max_iters - it`. -/
def ddLoop (o : BriefOracle) (max_tokens : Int) (max_cost : ℚ) :
    Nat → Nat → RunState → RunState
  | 0, _, st => st
  | fuel + 1, it, st =>
    if st.files ≠ [] ∧ budget_exceeded max_tokens max_cost st.accTokens st.accCost = false then
      let it2 := it + 1
      let r := o.deepDive it2
      let s2 := ddStep it2 st.briefing r.text
      ddLoop o max_tokens max_cost fuel it2
        ⟨st.accTokens + r.totalTokens, st.accCost + r.cost, st.requests + r.requests,
         st.warnings ++ s2.warnings, s2.briefing, s2.files,
         st.trace ++ [StageTag.deepDive it2]⟩
    else st

/-- State after overview plus the deep-dive loop. -/
def afterLoop (o : BriefOracle) (max_iters max_tokens : Int) (max_cost : ℚ) : RunState :=
  ddLoop o max_tokens max_cost max_iters.toNat 0 (afterOverview o)

/-- The aggregate returned by `run_briefing_loop` (the fields the claims are
about; the echoed configuration fields are omitted). -/
structure RunResult where
  briefing : String
  reading_plan : String
  totalTokens : Nat
  cost : ℚ
  requests : Nat
  stopped_reason : String
  warnings : List String
  trace : List StageTag

/-- `agents_workflow.run_briefing_loop` over the invocation oracle: overview,
budget-guarded deep-dive loop, budget-guarded reading plan, final assembly
(the initial `fetch_repo_context_impl` call only feeds prompt text, which the
oracle absorbs). -/
def run_briefing_loop (o : BriefOracle) (max_iters max_tokens : Int)
    (max_cost : ℚ) : RunResult :=
  let st := afterLoop o max_iters max_tokens max_cost
  let final :=
    if budget_exceeded max_tokens max_cost st.accTokens st.accCost = true then
      (st, "")
    else
      let r := o.readingPlan
      let rp := rpStep r.text
      (⟨st.accTokens + r.totalTokens, st.accCost + r.cost, st.requests + r.requests,
        st.warnings ++ rp.warnings, st.briefing, st.files,
        st.trace ++ [StageTag.readingPlan]⟩, rp.reading_plan)
  ⟨final.1.briefing, final.2, final.1.accTokens, final.1.accCost, final.1.requests,
   (if budget_exceeded max_tokens max_cost final.1.accTokens final.1.accCost = true
    then "budget_exceeded" else "completed"),
   final.1.warnings, final.1.trace⟩

theorem json_or_fallback_of_none (t k : String) (h : jsonObjOf t = none) :
    json_or_fallback t k = fallbackDict k t := by
  unfold jsonObjOf at h
  unfold json_or_fallback
  cases hp : jsonParse t with
  | none => rfl
  | some v =>
    rw [hp] at h
    cases v with
    | jobj d => simp at h
    | jnull => rfl
    | jbool b => rfl
    | jnum n => rfl
    | jstr s => rfl
    | jarr xs => rfl

theorem json_or_fallback_of_obj (t k : String) (d : List (String × JVal))
    (h : jsonParse t = some (.jobj d)) : json_or_fallback t k = d := by
  unfold json_or_fallback
  rw [h]


theorem overviewStep_of_none (t : String) (h : jsonObjOf t = none) :
    overviewStep t = ⟨t, [], []⟩ := by
  simp only [overviewStep]
  rw [json_or_fallback_of_none t _ h]
  rfl

theorem overviewStep_of_invalid (t : String) (d : List (String × JVal))
    (hp : jsonParse t = some (.jobj d)) (hv : validate_overview_output d = false) :
    overviewStep t = ⟨t, [], [overview_warning]⟩ := by
  simp only [overviewStep]
  rw [json_or_fallback_of_obj t _ d hp, if_pos hv]
  rfl

theorem overviewStep_of_valid (t : String) (d : List (String × JVal))
    (hp : jsonParse t = some (.jobj d)) (hv : validate_overview_output d = true) :
    (overviewStep t).warnings = [] := by
  simp only [overviewStep]
  rw [json_or_fallback_of_obj t _ d hp,
    if_neg (fun hc => by rw [hv] at hc; exact Bool.noConfusion hc)]

theorem ddStep_of_none (it : Nat) (b t : String) (h : jsonObjOf t = none) :
    ddStep it b t = ⟨t, [], []⟩ := by
  simp only [ddStep]
  rw [json_or_fallback_of_none t _ h]
  rfl

theorem ddStep_of_invalid (it : Nat) (b t : String) (d : List (String × JVal))
    (hp : jsonParse t = some (.jobj d)) (hv : validate_deep_dive_output d = false) :
    ddStep it b t = ⟨t, [], [deep_dive_warning it]⟩ := by
  simp only [ddStep]
  rw [json_or_fallback_of_obj t _ d hp, if_pos hv]
  rfl

theorem ddStep_of_valid (it : Nat) (b t : String) (d : List (String × JVal))
    (hp : jsonParse t = some (.jobj d)) (hv : validate_deep_dive_output d = true) :
    ddStep it b t = ⟨dd_update_briefing d b, filesGet d, []⟩ := by
  simp only [ddStep]
  rw [json_or_fallback_of_obj t _ d hp,
    if_neg (fun hc => by rw [hv] at hc; exact Bool.noConfusion hc)]

theorem rpStep_of_none (t : String) (h : jsonObjOf t = none) :
    rpStep t = ⟨t, []⟩ := by
  simp only [rpStep]
  rw [json_or_fallback_of_none t _ h]
  rfl

theorem rpStep_of_invalid (t : String) (d : List (String × JVal))
    (hp : jsonParse t = some (.jobj d)) (hv : validate_reading_plan_output d = false) :
    rpStep t = ⟨t, [reading_plan_warning]⟩ := by
  simp only [rpStep]
  rw [json_or_fallback_of_obj t _ d hp, if_pos hv]
  rfl

theorem rpStep_of_valid (t : String) (d : List (String × JVal))
    (hp : jsonParse t = some (.jobj d)) (hv : validate_reading_plan_output d = true) :
    (rpStep t).warnings = [] := by
  simp only [rpStep]
  rw [json_or_fallback_of_obj t _ d hp,
    if_neg (fun hc => by rw [hv] at hc; exact Bool.noConfusion hc)]

/-- C2 (amended): every stage recovers malformed model output locally.  Text
that does not parse as a JSON object yields the fallback dictionary, which
itself passes the schema validation, so no warning is appended; a JSON object
failing the schema validation yields the fallback dictionary plus exactly the
one warning naming the stage; a schema-valid object appends no warning. -/
theorem fallback_and_warn_spec :
    (∀ t : String, jsonObjOf t = none → overviewStep t = ⟨t, [], []⟩)
    ∧ (∀ (t : String) (d : List (String × JVal)),
        jsonParse t = some (.jobj d) → validate_overview_output d = false →
        overviewStep t = ⟨t, [], [overview_warning]⟩)
    ∧ (∀ (t : String) (d : List (String × JVal)),
        jsonParse t = some (.jobj d) → validate_overview_output d = true →
        (overviewStep t).warnings = [])
    ∧ (∀ (it : Nat) (b t : String), jsonObjOf t = none → ddStep it b t = ⟨t, [], []⟩)
    ∧ (∀ (it : Nat) (b t : String) (d : List (String × JVal)),
        jsonParse t = some (.jobj d) → validate_deep_dive_output d = false →
        ddStep it b t = ⟨t, [], [deep_dive_warning it]⟩)
    ∧ (∀ (it : Nat) (b t : String) (d : List (String × JVal)),
        jsonParse t = some (.jobj d) → validate_deep_dive_output d = true →
        (ddStep it b t).warnings = [])
    ∧ (∀ t : String, jsonObjOf t = none → rpStep t = ⟨t, []⟩)
    ∧ (∀ (t : String) (d : List (String × JVal)),
        jsonParse t = some (.jobj d) → validate_reading_plan_output d = false →
        rpStep t = ⟨t, [reading_plan_warning]⟩)
    ∧ (∀ (t : String) (d : List (String × JVal)),
        jsonParse t = some (.jobj d) → validate_reading_plan_output d = true →
        (rpStep t).warnings = []) := by
  refine ⟨overviewStep_of_none, overviewStep_of_invalid, overviewStep_of_valid,
    ddStep_of_none, ddStep_of_invalid, ?_, rpStep_of_none, rpStep_of_invalid,
    rpStep_of_valid⟩
  intro it b t d hp hv
  rw [ddStep_of_valid it b t d hp hv]

/-- Witness for C2: a non-JSON overview text falls back with no warning; a
JSON object missing `briefing_markdown` falls back with the one overview
warning. -/
theorem fallback_and_warn_spec_witness :
    overviewStep "hello" = ⟨"hello", [], []⟩
    ∧ overviewStep "\x7b\"files_to_inspect\": [\"a.py\"]\x7d" =
        ⟨"\x7b\"files_to_inspect\": [\"a.py\"]\x7d", [], [overview_warning]⟩ := by
  constructor
  · exact fallback_and_warn_spec.1 "hello" rfl
  · exact fallback_and_warn_spec.2.1 "\x7b\"files_to_inspect\": [\"a.py\"]\x7d"
      [("files_to_inspect", JVal.jarr [JVal.jstr "a.py"])] rfl rfl

/-- Concrete oracle: overview text is plain prose (not JSON), the reading
plan text likewise; nothing exceeds the disabled budget. -/
def oCex : BriefOracle := ⟨⟨"hello", 3, 0, 1⟩, fun _ => ⟨"dd", 0, 0, 1⟩, ⟨"plan", 2, 0, 1⟩⟩

/-- C2: the claim promises one warning naming the stage whenever the stage
text is not valid JSON; in this run both the overview and the reading-plan
texts are not valid JSON, yet the returned warnings list is empty (the
fallback dictionary passes validation, so the code never warns on non-JSON
text). -/
theorem run_briefing_loop_cex :
    jsonParse "hello" = none
    ∧ jsonParse "plan" = none
    ∧ (run_briefing_loop oCex 2 0 0).warnings = []
    ∧ (run_briefing_loop oCex 2 0 0).briefing = "hello"
    ∧ (run_briefing_loop oCex 2 0 0).reading_plan = "plan" :=
  ⟨rfl, rfl, rfl, rfl, rfl⟩

theorem ddLoop_trace (o : BriefOracle) (mt : Int) (mc : ℚ) :
    ∀ (fuel it : Nat) (st : RunState),
      ∃ ts, (ddLoop o mt mc fuel it st).trace = st.trace ++ ts
        ∧ ∀ t ∈ ts, ∃ k, t = StageTag.deepDive k := by
  intro fuel
  induction fuel with
  | zero =>
    intro it st
    exact ⟨[], by simp [ddLoop], by simp⟩
  | succ f ih =>
    intro it st
    simp only [ddLoop]
    by_cases hc : st.files ≠ [] ∧ budget_exceeded mt mc st.accTokens st.accCost = false
    · rw [if_pos hc]
      obtain ⟨ts, hts, hall⟩ := ih (it + 1) _
      refine ⟨StageTag.deepDive (it + 1) :: ts, ?_, ?_⟩
      · rw [hts]
        simp
      · intro t ht
        rcases List.mem_cons.mp ht with h | h
        · exact ⟨it + 1, h⟩
        · exact hall t h
    · rw [if_neg hc]
      exact ⟨[], by simp, by simp⟩

/-- C1: once the accumulated totals meet a nonzero ceiling, the deep-dive
loop performs no further iteration; the loop also stops as soon as
`files_to_inspect` is empty, regardless of remaining iterations; and when the
budget is exceeded after the loop, the reading-plan stage never executes (no
reading-plan tag in the trace, empty reading plan in the result). -/
theorem budget_guard_spec :
    (∀ (o : BriefOracle) (mt : Int) (mc : ℚ) (fuel it : Nat) (st : RunState),
      budget_exceeded mt mc st.accTokens st.accCost = true →
      ddLoop o mt mc fuel it st = st)
    ∧ (∀ (o : BriefOracle) (mt : Int) (mc : ℚ) (fuel it : Nat) (st : RunState),
      st.files = [] → ddLoop o mt mc fuel it st = st)
    ∧ (∀ (o : BriefOracle) (mi mt : Int) (mc : ℚ),
      budget_exceeded mt mc (afterLoop o mi mt mc).accTokens
          (afterLoop o mi mt mc).accCost = true →
      StageTag.readingPlan ∉ (run_briefing_loop o mi mt mc).trace
      ∧ (run_briefing_loop o mi mt mc).reading_plan = "") := by
  refine ⟨?_, ?_, ?_⟩
  · intro o mt mc fuel it st h
    cases fuel with
    | zero => rfl
    | succ f =>
      simp only [ddLoop]
      rw [if_neg (fun hc => by rw [h] at hc; exact Bool.noConfusion hc.2)]
  · intro o mt mc fuel it st h
    cases fuel with
    | zero => rfl
    | succ f =>
      simp only [ddLoop]
      rw [if_neg (fun hc => hc.1 h)]
  · intro o mi mt mc h
    constructor
    · simp only [run_briefing_loop]
      rw [if_pos h]
      intro hmem
      obtain ⟨ts, hts, hall⟩ := ddLoop_trace o mt mc mi.toNat 0 (afterOverview o)
      have htr : (afterLoop o mi mt mc).trace = [StageTag.overview] ++ ts := by
        rw [afterLoop, hts]
        rfl
      rw [htr] at hmem
      rcases List.mem_append.mp hmem with hmem | hmem
      · simp at hmem
      · obtain ⟨k, hk⟩ := hall _ hmem
        exact StageTag.noConfusion hk
    · simp only [run_briefing_loop]
      rw [if_pos h]

/-- Concrete state and oracle on which the token ceiling is already met. -/
def stW : RunState := ⟨5, 0, 1, [], "b", ["f"], [StageTag.overview]⟩

def oW : BriefOracle := ⟨⟨"hello", 5, 0, 1⟩, fun _ => ⟨"dd", 0, 0, 1⟩, ⟨"plan", 0, 0, 1⟩⟩

/-- Witness for C1: with `max_tokens = 1` already consumed, the loop does not
iterate (even with fuel and files remaining) and the reading plan is
skipped. -/
theorem budget_guard_spec_witness :
    ddLoop oW 1 0 3 7 stW = stW
    ∧ ddLoop oW 0 0 3 7 ⟨0, 0, 0, [], "b", [], []⟩ = ⟨0, 0, 0, [], "b", [], []⟩
    ∧ StageTag.readingPlan ∉ (run_briefing_loop oW 2 1 0).trace := by
  refine ⟨?_, ?_, ?_⟩
  · exact budget_guard_spec.1 oW 1 0 3 7 stW (by decide)
  · exact budget_guard_spec.2.1 oW 0 0 3 7 ⟨0, 0, 0, [], "b", [], []⟩ rfl
  · exact (budget_guard_spec.2.2 oW 2 1 0 (by decide)).1

/-- C3: in a deep-dive iteration, a schema-valid parse replaces the running
briefing with the new `briefing_markdown` and replaces `files_to_inspect`
with the new list; the `.get` default keeps the prior briefing whenever the
final dictionary lacks `briefing_markdown` (after the fallback the field is
always present, so this default never fires in a run); and the pending list
becomes empty on fallback (non-object text or schema-invalid object). -/
theorem deep_dive_update_spec :
    (∀ (it : Nat) (b t : String) (d : List (String × JVal)) (s : String),
      jsonParse t = some (.jobj d) → validate_deep_dive_output d = true →
      dictFind d "briefing_markdown" = some (.jstr s) →
      (ddStep it b t).briefing = s)
    ∧ (∀ (d : List (String × JVal)) (b : String),
        dictFind d "briefing_markdown" = none → dd_update_briefing d b = b)
    ∧ (∀ (it : Nat) (b t : String) (d : List (String × JVal)) (l : List JVal),
        jsonParse t = some (.jobj d) → validate_deep_dive_output d = true →
        dictFind d "files_to_inspect" = some (.jarr l) →
        (ddStep it b t).files = l.map asStr)
    ∧ (∀ (it : Nat) (b t : String), jsonObjOf t = none → (ddStep it b t).files = [])
    ∧ (∀ (it : Nat) (b t : String) (d : List (String × JVal)),
        jsonParse t = some (.jobj d) → validate_deep_dive_output d = false →
        (ddStep it b t).files = []) := by
  refine ⟨?_, ?_, ?_, ?_, ?_⟩
  · intro it b t d s hp hv hf
    rw [ddStep_of_valid it b t d hp hv]
    show dd_update_briefing d b = s
    rw [dd_update_briefing, hf]
    rfl
  · intro d b h
    rw [dd_update_briefing, h]
  · intro it b t d l hp hv hf
    rw [ddStep_of_valid it b t d hp hv]
    show filesGet d = l.map asStr
    rw [filesGet, hf]
    cases l with
    | nil => rfl
    | cons x xs => rfl
  · intro it b t h
    rw [ddStep_of_none it b t h]
  · intro it b t d hp hv
    rw [ddStep_of_invalid it b t d hp hv]

/-- Witness for C3: a schema-valid deep-dive output replaces briefing and
files; the `.get` default keeps the prior briefing on a dictionary without
the field. -/
theorem deep_dive_update_spec_witness :
    (ddStep 1 "old" "\x7b\"briefing_markdown\": \"new\", \"files_to_inspect\": [\"x.py\"]\x7d").briefing = "new"
    ∧ (ddStep 1 "old" "\x7b\"briefing_markdown\": \"new\", \"files_to_inspect\": [\"x.py\"]\x7d").files = ["x.py"]
    ∧ dd_update_briefing [] "old" = "old" := by
  refine ⟨?_, ?_, ?_⟩
  · exact deep_dive_update_spec.1 1 "old" _
      [("briefing_markdown", JVal.jstr "new"), ("files_to_inspect", JVal.jarr [JVal.jstr "x.py"])]
      "new" rfl rfl rfl
  · exact deep_dive_update_spec.2.2.1 1 "old" _
      [("briefing_markdown", JVal.jstr "new"), ("files_to_inspect", JVal.jarr [JVal.jstr "x.py"])]
      [JVal.jstr "x.py"] rfl rfl rfl
  · exact deep_dive_update_spec.2.1 [] "old" rfl

/-- The JSON object embedded in the prose of the C4 failing input (the same
shape the repository test suite feeds to `json_or_fallback`). -/
def embeddedObjText : String :=
  "\x7b\"briefing_markdown\": \"embedded\", \"files_to_inspect\": [\"c.py\"]\x7d"

/-- C4: evidence for the code bug: the text contains a well-formed JSON
object (second conjunct), yet `json_or_fallback` returns the unstructured
fallback wrapping the whole text (first conjunct), because it parses the
whole string instead of scanning for an embedded object; the third conjunct
shows the whole text is indeed not valid JSON. The repository test suite
(test_json_or_fallback_parses_structured_json) expects the embedded object to
be extracted. -/
theorem json_or_fallback_blind_parse :
    json_or_fallback ("Preface\n" ++ embeddedObjText ++ "\nPostscript") "briefing_markdown"
      = fallbackDict "briefing_markdown" ("Preface\n" ++ embeddedObjText ++ "\nPostscript")
    ∧ jsonParse embeddedObjText
      = some (JVal.jobj [("briefing_markdown", JVal.jstr "embedded"),
          ("files_to_inspect", JVal.jarr [JVal.jstr "c.py"])])
    ∧ jsonParse ("Preface\n" ++ embeddedObjText ++ "\nPostscript") = none :=
  ⟨rfl, rfl, rfl⟩

/-- The GitHub endpoints `github_client` requests (query parameters that do
not affect behaviour are folded into the constructor arguments). -/
inductive Endpoint where
  | repoMeta (owner repo : String)
  | branches (owner repo branch : String)
  | commits (owner repo ref : String)
  | gitTree (owner repo sha : String)
  | contents (owner repo path ref : String)
  | readme (owner repo ref : String)
deriving DecidableEq

/-- True exactly for the repository-metadata endpoint. -/
def isRepoMeta : Endpoint → Bool
  | .repoMeta _ _ => true
  | _ => false

/-- Python `str(x)` for the scalar shapes that can reach it here (container
reprs are not modelled; no theorem exercises them). -/
def pyStr : JVal → String
  | .jnull => "None"
  | .jbool true => "True"
  | .jbool false => "False"
  | .jnum n => toString n
  | .jstr s => s
  | .jarr _ => "<list>"
  | .jobj _ => "<dict>"

/-- `github_client.fetch_repo_tree`: resolve the tree SHA via branch lookup,
falling back to commit lookup when the branch lookup raises, then list the
tree recursively. The oracle `api` stands for `safe_get_json` (`.error ()` is
a raised `RuntimeError`); the second component records the endpoints
requested, in order. -/
def fetch_repo_tree (api : Endpoint → Except Unit JVal) (owner repo branch : String) :
    Except Unit (List JVal) × List Endpoint :=
  let shaStep : Except Unit JVal × List Endpoint :=
    match api (.branches owner repo branch) with
    | .ok branch_obj =>
      let a1 := jorJ (jget branch_obj "commit") (.jobj [])
      let a2 := jorJ (jget a1 "commit") (.jobj [])
      let a3 := jorJ (jget a2 "tree") (.jobj [])
      (.ok (.jstr (pyStr (jorJ (jget a3 "sha") (.jstr "")))),
        [.branches owner repo branch])
    | .error _ =>
      match api (.commits owner repo branch) with
      | .error _ => (.error (), [.branches owner repo branch, .commits owner repo branch])
      | .ok commit_obj =>
        let b1 := jorJ (jget commit_obj "commit") (.jobj [])
        let b2 := jorJ (jget b1 "tree") (.jobj [])
        let sha2 :=
          match b2 with
          | .jobj fs => (dictFind fs "sha").getD (.jstr "")
          | _ => .jstr ""
        (.ok sha2, [.branches owner repo branch, .commits owner repo branch])
  match shaStep with
  | (.error _, reqs) => (.error (), reqs)
  | (.ok tree_shaV, reqs) =>
    if pyTruthy tree_shaV = false then (.error (), reqs)
    else
      match api (.gitTree owner repo (pyStr tree_shaV)) with
      | .error _ => (.error (), reqs ++ [.gitTree owner repo (pyStr tree_shaV)])
      | .ok tree_obj =>
        let tree :=
          match tree_obj with
          | .jobj fs => (dictFind fs "tree").getD (.jarr [])
          | _ => .jarr []
        let treeList := match tree with | .jarr xs => xs | _ => ([] : List JVal)
        (.ok treeList, reqs ++ [.gitTree owner repo (pyStr tree_shaV)])

/-- `github_client.build_tree_index`: `path -> type` mapping (tree entries
whose `path`/`type` are not truthy strings are skipped; the upstream API only
sends strings there). -/
def build_tree_index (tree : List JVal) : List (String × String) :=
  tree.foldl (fun out item =>
    match item with
    | .jobj fs =>
      match dictGet fs "path", dictGet fs "type" with
      | .jstr p, .jstr ty => if p ≠ "" ∧ ty ≠ "" then insertKeyP out p ty else out
      | _, _ => out
    | _ => out) []

/-- Sort key of `tree_summary`: `(path.count "/"), path` lexicographically
(Python `sorted` is stable, as is `mergeSort`). -/
def treeKeyLe (p q : String) : Bool :=
  let a := (p.data.filter (fun c => c = '/')).length
  let b := (q.data.filter (fun c => c = '/')).length
  a < b || (a == b && decide (p ≤ q))

/-- `github_client.tree_summary`. -/
def tree_summary (paths : List String) (max_entries : Nat) : String :=
  let ordered := (paths.mergeSort treeKeyLe).take max_entries
  String.intercalate "\n"
    (ordered.map (fun p =>
      (if p.data.getLast? = some '/' then "📁 " else "📄 ") ++ p))

/-- `github_client.fetch_file_content`: contents endpoint, `type == "file"`
guard, truthy-content guard, truncation. Base64 decoding is abstracted: the
oracle already carries decoded text in the `content` field. Per-file requests
are recorded even when the call raises. -/
def fetch_file_content (api : Endpoint → Except Unit JVal)
    (owner repo path ref : String) (max_chars : Int) :
    Except Unit String × List Endpoint :=
  let ep := Endpoint.contents owner repo path ref
  match api ep with
  | .error _ => (.error (), [ep])
  | .ok obj =>
    match obj with
    | .jobj fs =>
      if (match dictGet fs "type" with | .jstr s => s == "file" | _ => false) = true then
        let content := (dictFind fs "content").getD (.jstr "")
        if pyTruthy content = true then
          (.ok (truncateStr (asStr content) max_chars), [ep])
        else (.ok "", [ep])
      else (.ok "", [ep])
    | _ => (.ok "", [ep])

/-- The vendored directory prefixes excluded from the tree summary. -/
def vendoredPrefixes : List (List Char) :=
  ["node_modules/", "dist/", "build/", ".git/", ".venv/", "venv/"].map String.data

/-- Python `path.rstrip("/")`. -/
def rstripSlash (cs : List Char) : List Char :=
  (cs.reverse.dropWhile (fun c => c = '/')).reverse

/-- The metadata phase of `fetch_repo_context_impl`: with an explicit ref the
metadata request is skipped entirely and the metadata dict stays empty. -/
def metaPhase (api : Endpoint → Except Unit JVal) (owner repo ref : String) :
    Except Unit (List (String × JVal) × String) × List Endpoint :=
  if ref = "" then
    match api (.repoMeta owner repo) with
    | .error _ => (.error (), [.repoMeta owner repo])
    | .ok m =>
      let meta := match m with | .jobj fs => fs | _ => ([] : List (String × JVal))
      let resolved :=
        match dictFind meta "default_branch" with
        | some v => asStr v
        | none => "main"
      (.ok (meta, resolved), [.repoMeta owner repo])
  else (.ok ([], ref), [])

/-- The per-key-file content phase of `fetch_repo_context_impl` (each file
fetch failure degrades to the empty string for that file only). -/
def contentsPhase (api : Endpoint → Except Unit JVal) (owner repo ref : String)
    (max_file_chars : Int) (key_files : List String) :
    List (String × String) × List Endpoint :=
  key_files.foldl (fun acc p =>
    let r := fetch_file_content api owner repo p ref max_file_chars
    (acc.1 ++ [(p, match r.1 with | .ok s => s | .error _ => "")], acc.2 ++ r.2))
    ([], [])

/-- The README resolution phase of `fetch_repo_context_impl`. -/
def readmePhase (api : Endpoint → Except Unit JVal) (owner repo resolved_ref : String)
    (max_readme_chars : Int) (files_content : List (String × String)) :
    String × List Endpoint :=
  let readme0 :=
    ((files_content.find? (fun kv => kv.1 == "README.md")).map (fun kv => kv.2)).getD ""
  if readme0 = "" then
    match api (.readme owner repo resolved_ref) with
    | .error _ => ("", [.readme owner repo resolved_ref])
    | .ok obj =>
      let c :=
        match obj with
        | .jobj fs => (dictFind fs "content").getD (.jstr "")
        | _ => .jstr ""
      if pyTruthy c = true then
        (truncateStr (asStr c) max_readme_chars, [.readme owner repo resolved_ref])
      else ("", [.readme owner repo resolved_ref])
  else (truncateStr readme0 max_readme_chars, [])

/-- The dictionary returned by `fetch_repo_context_impl` (fields in source
order). -/
structure RepoContext where
  repo_url : String
  owner : String
  repo : String
  full_name : JVal
  description : JVal
  stars : JVal
  language : JVal
  topics : JVal
  license : JVal
  default_branch : JVal
  ref : String
  tree_summary : String
  key_files : List String
  readme : String
  key_file_contents : List (String × String)

/-- `github_client.fetch_repo_context_impl` over the request oracle `api` and
the set-iteration order `setOrder` used by `pick_key_files`; returns the
context (or the propagated error) together with the ordered list of endpoints
requested. -/
def fetch_repo_context_impl (api : Endpoint → Except Unit JVal) (setOrder : List String)
    (repo_url : String) (max_readme_chars : Int) (max_tree_entries : Nat)
    (max_key_files : Nat) (max_file_chars : Int) (ref : String) :
    Except Unit RepoContext × List Endpoint :=
  match parse_github_repo_url repo_url with
  | .error _ => (.error (), [])
  | .ok (owner, repo) =>
    match metaPhase api owner repo ref with
    | (.error _, reqs0) => (.error (), reqs0)
    | (.ok (repo_meta, resolved_ref), reqs0) =>
      match fetch_repo_tree api owner repo resolved_ref with
      | (.error _, reqs1) => (.error (), reqs0 ++ reqs1)
      | (.ok tree, reqs1) =>
        let tree_index := build_tree_index tree
        let paths_for_summary := tree_index.filterMap (fun kv =>
          if vendoredPrefixes.any (fun pre => pre.isPrefixOf (pyLower kv.1.data)) then none
          else if kv.2 = "tree" then some (String.mk (rstripSlash kv.1.data ++ ['/']))
          else some kv.1)
        let key_files := pick_key_files tree_index setOrder max_key_files
        let fc := contentsPhase api owner repo resolved_ref max_file_chars key_files
        let rm := readmePhase api owner repo resolved_ref max_readme_chars fc.1
        (.ok
          { repo_url := repo_url
            owner := owner
            repo := repo
            full_name := jorJ (dictGet repo_meta "full_name")
              (.jstr (owner ++ "/" ++ repo))
            description := dictGet repo_meta "description"
            stars := dictGet repo_meta "stargazers_count"
            language := dictGet repo_meta "language"
            topics := (dictFind repo_meta "topics").getD (.jarr [])
            license := jget (jorJ (dictGet repo_meta "license") (.jobj [])) "spdx_id"
            default_branch := dictGet repo_meta "default_branch"
            ref := resolved_ref
            tree_summary := tree_summary paths_for_summary max_tree_entries
            key_files := key_files
            readme := rm.1
            key_file_contents := fc.1 },
          reqs0 ++ reqs1 ++ fc.2 ++ rm.2)

theorem fetch_file_content_reqs (api : Endpoint → Except Unit JVal)
    (o r p ref : String) (mfc : Int) :
    (fetch_file_content api o r p ref mfc).2 = [Endpoint.contents o r p ref] := by
  simp only [fetch_file_content]
  cases api (Endpoint.contents o r p ref) with
  | error e => rfl
  | ok obj =>
    cases obj with
    | jobj fs =>
      dsimp only
      split
      · split
        · rfl
        · rfl
      · rfl
    | jnull => rfl
    | jbool b => rfl
    | jnum n => rfl
    | jstr s => rfl
    | jarr xs => rfl

theorem fetch_repo_tree_no_meta (api : Endpoint → Except Unit JVal) (o r b : String) :
    ∀ e ∈ (fetch_repo_tree api o r b).2, isRepoMeta e = false := by
  intro e he
  simp only [fetch_repo_tree] at he
  cases hb : api (Endpoint.branches o r b) with
  | ok branch_obj =>
    simp only [hb] at he
    split at he
    · simp at he
      subst he
      rfl
    · split at he <;>
        · simp at he
          rcases he with he | he <;> (subst he; rfl)
  | error u =>
    simp only [hb] at he
    cases hc : api (Endpoint.commits o r b) with
    | error u2 =>
      simp only [hc] at he
      simp at he
      rcases he with he | he <;> (subst he; rfl)
    | ok commit_obj =>
      simp only [hc] at he
      split at he
      · simp at he
        rcases he with he | he <;> (subst he; rfl)
      · split at he <;>
          · simp at he
            rcases he with he | he | he <;> (subst he; rfl)

theorem contentsPhase_no_meta (api : Endpoint → Except Unit JVal)
    (o r ref : String) (mfc : Int) :
    ∀ (ps : List String), ∀ e ∈ (contentsPhase api o r ref mfc ps).2,
      isRepoMeta e = false := by
  have aux : ∀ (ps : List String) (acc : List (String × String) × List Endpoint),
      (∀ e ∈ acc.2, isRepoMeta e = false) →
      ∀ e ∈ (ps.foldl (fun acc p =>
        let fr := fetch_file_content api o r p ref mfc
        (acc.1 ++ [(p, match fr.1 with | .ok s => s | .error _ => "")],
          acc.2 ++ fr.2)) acc).2,
      isRepoMeta e = false := by
    intro ps
    induction ps with
    | nil => intro acc hacc e he; exact hacc e he
    | cons p ps ih =>
      intro acc hacc e he
      refine ih _ ?_ e he
      intro e2 he2
      simp only [List.mem_append] at he2
      rcases he2 with he2 | he2
      · exact hacc e2 he2
      · rw [fetch_file_content_reqs] at he2
        simp at he2
        rw [he2]
        rfl
  intro ps e he
  exact aux ps ([], []) (by simp) e he

theorem readmePhase_no_meta (api : Endpoint → Except Unit JVal)
    (o r ref : String) (mrc : Int) (fc : List (String × String)) :
    ∀ e ∈ (readmePhase api o r ref mrc fc).2, isRepoMeta e = false := by
  intro e he
  simp only [readmePhase] at he
  split at he
  · cases hr : api (Endpoint.readme o r ref) with
    | error u =>
      simp only [hr] at he
      simp at he
      rw [he]
      rfl
    | ok obj =>
      simp only [hr] at he
      split at he
      · simp at he
        rw [he]
        rfl
      · simp at he
        rw [he]
        rfl
  · simp at he

theorem metaPhase_of_ref (api : Endpoint → Except Unit JVal) (o r ref : String)
    (h : ref ≠ "") : metaPhase api o r ref = (.ok ([], ref), []) := by
  simp only [metaPhase]
  rw [if_neg h]

/-- C10: when `fetch_repo_context_impl` is called with a non-empty `ref`, the
repository-metadata endpoint is never requested, and on success the metadata
fields of the returned context take their defaults: `full_name` is
`OWNER/NAME`, the scalar metadata fields are null, `topics` is the empty
list, and the returned `ref` equals the supplied `ref`. -/
theorem fetch_repo_context_ref_spec (api : Endpoint → Except Unit JVal)
    (setOrder : List String) (repo_url : String) (mrc : Int) (mte : Nat)
    (mkf : Nat) (mfc : Int) (ref : String) (href : ref ≠ "") :
    (∀ o r, Endpoint.repoMeta o r ∉
      (fetch_repo_context_impl api setOrder repo_url mrc mte mkf mfc ref).2)
    ∧ (∀ ctx, (fetch_repo_context_impl api setOrder repo_url mrc mte mkf mfc ref).1
        = .ok ctx →
        ctx.full_name = .jstr (ctx.owner ++ "/" ++ ctx.repo)
        ∧ ctx.description = .jnull ∧ ctx.stars = .jnull ∧ ctx.language = .jnull
        ∧ ctx.license = .jnull ∧ ctx.default_branch = .jnull
        ∧ ctx.topics = .jarr [] ∧ ctx.ref = ref) := by
  simp only [fetch_repo_context_impl]
  cases hp : parse_github_repo_url repo_url with
  | error u =>
    constructor
    · intro o r hmem
      simp at hmem
    · intro ctx hctx
      simp at hctx
  | ok pr =>
    obtain ⟨owner, repo⟩ := pr
    dsimp only
    rw [metaPhase_of_ref api owner repo ref href]
    dsimp only
    cases hft : fetch_repo_tree api owner repo ref with
    | mk res1 reqs1 =>
      cases res1 with
      | error u =>
        dsimp only
        constructor
        · intro o r hmem
          simp only [List.nil_append] at hmem
          have := fetch_repo_tree_no_meta api owner repo ref (.repoMeta o r)
            (by rw [hft]; exact hmem)
          simp [isRepoMeta] at this
        · intro ctx hctx
          simp at hctx
      | ok tree =>
        dsimp only
        constructor
        · intro o r hmem
          simp only [List.nil_append, List.mem_append] at hmem
          rcases hmem with (hmem | hmem) | hmem
          · have := fetch_repo_tree_no_meta api owner repo ref (.repoMeta o r)
              (by rw [hft]; exact hmem)
            simp [isRepoMeta] at this
          · have := contentsPhase_no_meta api owner repo ref mfc _ (.repoMeta o r) hmem
            simp [isRepoMeta] at this
          · have := readmePhase_no_meta api owner repo ref mrc _ (.repoMeta o r) hmem
            simp [isRepoMeta] at this
        · intro ctx hctx
          simp only [Except.ok.injEq] at hctx
          subst hctx
          exact ⟨rfl, rfl, rfl, rfl, rfl, rfl, rfl, rfl⟩

/-- Concrete request oracle for the explicit-ref witness: branch lookup
resolves a tree SHA, the tree holds one README blob, contents and readme
endpoints answer; the metadata endpoint would fail if it were ever called. -/
def apiW : Endpoint → Except Unit JVal := fun e =>
  match e with
  | .branches _ _ _ =>
    .ok (.jobj [("commit", .jobj [("commit", .jobj [("tree", .jobj [("sha", .jstr "t1")])])])])
  | .gitTree _ _ _ =>
    .ok (.jobj [("tree", .jarr [.jobj [("path", .jstr "README.md"), ("type", .jstr "blob")]])])
  | .contents _ _ _ _ =>
    .ok (.jobj [("type", .jstr "file"), ("content", .jstr "hello")])
  | .readme _ _ _ => .ok (.jobj [("content", .jstr "")])
  | _ => .error ()

/-- Witness for C10: with `ref = "dev"` the metadata endpoint is absent from
the request log and the successful context carries the default metadata. -/
theorem fetch_repo_context_ref_spec_witness :
    Endpoint.repoMeta "openai" "openai-python" ∉
      (fetch_repo_context_impl apiW ["README.md"]
        "https://github.com/openai/openai-python" 12000 350 12 12000 "dev").2
    ∧ ∃ ctx, (fetch_repo_context_impl apiW ["README.md"]
          "https://github.com/openai/openai-python" 12000 350 12 12000 "dev").1
        = .ok ctx
        ∧ ctx.ref = "dev" ∧ ctx.description = JVal.jnull
        ∧ ctx.full_name = JVal.jstr (ctx.owner ++ "/" ++ ctx.repo) := by
  have h := fetch_repo_context_ref_spec apiW ["README.md"]
    "https://github.com/openai/openai-python" 12000 350 12 12000 "dev" (by decide)
  refine ⟨h.1 "openai" "openai-python", ?_⟩
  obtain ⟨ctx, hctx⟩ : ∃ ctx, (fetch_repo_context_impl apiW ["README.md"]
      "https://github.com/openai/openai-python" 12000 350 12 12000 "dev").1
      = .ok ctx := ⟨_, rfl⟩
  have h2 := h.2 ctx hctx
  exact ⟨ctx, hctx, h2.2.2.2.2.2.2.2, h2.2.1, h2.1⟩
